import Mathlib

/-!
Formal model of the retrieval-augmented question-answering pipeline in
`assistant.py`: the document segmenter (`DocumentProcessor`), the vector
knowledge base (`KnowledgeBase`: build / save / load / search), and the
answering entry point (`Assistant.ask_question`).

Modelling conventions:
* Python strings are Lean `String`s; character-level work happens on
  `String.data : List Char`.  Python `len`, slicing `[:n]`, `strip()`,
  `split()`, and `'sep'.join()` are modelled by `String.length`,
  `List.take`, `trimL`, `pyWords`, and `pyJoin`.
* Embedding vectors are `List ℚ` (the float values themselves never matter
  to the spec; only lengths, distances and comparisons do).
* External services are oracles: the embedding provider is a function
  `String → String → Option (List ℚ)` (model, text ↦ vector, `none` =
  provider failure), `numpy.random.rand n` is a draw function applied to
  `List.range n`, the FAISS flat L2 index is the stored list of vectors
  with exact nearest-neighbour search (ascending squared-Euclidean
  distance), and the chat model is an oracle returning `none` on failure.
* The filesystem side effects of `save_to_file` / `load_from_file` are
  modelled by a `SavedFiles` record holding the optional contents of the
  index file, the binary `.metadata` pickle sidecar, the diagnostic
  `_metadata.json` sidecar and the `_statistics.json` sidecar;
  pickle/JSON round-trips of these records are identities.
-/

/-! ## Character and string primitives -/

/-- Characters removed by Python `str.strip()` and by the blank-line and
whitespace splitting in the segmenter. -/
def wsChar (c : Char) : Bool := c.isWhitespace

/-- Sentence-terminating punctuation matched by `re.split(r'[.!?]+', ...)`
in `DocumentProcessor.split_text`. -/
def sentencePunct (c : Char) : Bool := c = '.' || c = '!' || c = '?'

/-- A character that is neither whitespace nor sentence-terminating
punctuation.  Used to state content preservation of the segmenter. -/
def plainChar (c : Char) : Bool := !wsChar c && !sentencePunct c

/-- A non-whitespace character (used for the literal reading of the
content-preservation property). -/
def inkChar (c : Char) : Bool := !wsChar c

/-- Python `str.strip()` on the character list: drop whitespace from both
ends. -/
def trimL (l : List Char) : List Char :=
  ((l.dropWhile wsChar).reverse.dropWhile wsChar).reverse

/-- Python `str.strip()`. -/
def pyStrip (s : String) : String := String.mk (trimL s.data)

/-- Python `'\n'`-splitting (`text.split('\n')`): split at every newline,
keeping empty pieces. -/
def splitNl : List Char → List (List Char)
  | [] => [[]]
  | c :: rest =>
    match splitNl rest with
    | [] => [[c]]
    | p :: ps => if c = '\n' then [] :: p :: ps else (c :: p) :: ps

/-- Python `sep.join(parts)` on character lists. -/
def joinSep (sep : List Char) : List (List Char) → List Char
  | [] => []
  | [x] => x
  | x :: y :: ys => x ++ sep ++ joinSep sep (y :: ys)

/-- Python `sep.join(parts)`. -/
def pyJoin (sep : String) (parts : List String) : String :=
  String.mk (joinSep sep.data (parts.map String.data))

/-- Helper for Python `str.split()` (no argument): accumulate
maximal runs of non-whitespace characters, dropping empties. -/
def pyWordsAux : List Char → List Char → List (List Char)
  | [], acc => if acc = [] then [] else [acc.reverse]
  | c :: rest, acc =>
    if wsChar c then
      if acc = [] then pyWordsAux rest []
      else acc.reverse :: pyWordsAux rest []
    else pyWordsAux rest (c :: acc)

/-- Python `str.split()` (split on whitespace runs, no empty words). -/
def pyWords (s : String) : List String := (pyWordsAux s.data []).map String.mk

/-- Helper for `re.split(r'[.!?]+', text)`: cut at every maximal run of
sentence punctuation (the run itself is discarded, as `re.split` discards
the matched separator).  On hitting a separator, the run's remaining
characters are consumed one at a time through the skip counter (third
argument), which keeps the recursion structural; `sentSplitAux_skip`
identifies this with dropping the separator in one go. -/
def sentSplitAux : List Char → List Char → Nat → List (List Char)
  | [], acc, _ => [acc.reverse]
  | _ :: rest, acc, skip + 1 => sentSplitAux rest acc skip
  | c :: rest, acc, 0 =>
    if sentencePunct c then
      acc.reverse :: sentSplitAux rest [] (rest.takeWhile sentencePunct).length
    else sentSplitAux rest (c :: acc) 0

/-- `re.split(r'[.!?]+', text)`. -/
def sentSplit (s : String) : List String := (sentSplitAux s.data [] 0).map String.mk

/-- Index of the last newline in a character list, if any. -/
def lastNlIdx : List Char → Option Nat
  | [] => none
  | c :: cs =>
    match lastNlIdx cs with
    | some i => some (i + 1)
    | none => if c = '\n' then some 0 else none

/-- Helper for `re.split(r'\n\s*\n', text)`.  The regex engine scans left
to right; at a `'\n'` it greedily extends through whitespace and
backtracks to the last `'\n'` of that whitespace run, so a separator is
matched exactly when the maximal whitespace run starting at a newline
contains a second newline, and the separator ends at the run's last
newline.  The matched separator's remaining characters are consumed one
at a time through the skip counter (third argument), which keeps the
recursion structural; `paraSplitAux_skip` identifies this with dropping
the separator in one go. -/
def paraSplitAux : List Char → List Char → Nat → List (List Char)
  | [], acc, _ => [acc.reverse]
  | _ :: rest, acc, skip + 1 => paraSplitAux rest acc skip
  | c :: rest, acc, 0 =>
    if c = '\n' then
      match lastNlIdx (rest.takeWhile wsChar) with
      | some k => acc.reverse :: paraSplitAux rest [] (k + 1)
      | none => paraSplitAux rest (c :: acc) 0
    else paraSplitAux rest (c :: acc) 0

/-- `re.split(r'\n\s*\n', text)`: blank-line splitting into paragraphs. -/
def paraSplit (s : String) : List String := (paraSplitAux s.data [] 0).map String.mk

/-! ## Data model -/

/-- The `metadata` dictionary attached to a chunk.  `source` and
`document_title` are always present; `header` and `header_path` are added
only by the structure-aware segmenter. -/
structure ChunkMetadata where
  source : String
  document_title : String
  header : Option String
  header_path : Option String
deriving DecidableEq, Repr, Inhabited

/-- A chunk dictionary `{'content': ..., 'metadata': ..., 'tokens': ...}`. -/
structure Chunk where
  content : String
  metadata : ChunkMetadata
  tokens : Nat
deriving DecidableEq, Repr, Inhabited

/-- The `DocumentProcessor` configuration (`chunk_overlap` is stored but
never read by either splitting algorithm). -/
structure DocumentProcessor where
  chunk_size : Nat
  chunk_overlap : Nat
deriving DecidableEq, Repr

/-- `DocumentProcessor.count_tokens` falls back to `len(text) // 4` when
the `tiktoken` tokenizer is unavailable; the primary tokenizer is an
external library, so segmentation is parameterised over the token counter
and this fallback is its concrete instantiation. -/
def count_tokens_fallback (s : String) : Nat := s.length / 4

/-! ## DocumentProcessor.text_to_markdown -/

/-- The marker `'#' * k + ' '` of a level-`k` markdown heading. -/
def headerMarker (k : Nat) : List Char := List.replicate k '#' ++ [' ']

/-- One line under `re.sub(r'^<marker>(.+)', ..., flags=re.M)` for the
level-`k` marker: a matching line is replaced by itself followed by a
duplicate of the heading text on its own line. -/
def expandLine (k : Nat) (line : List Char) : List (List Char) :=
  if line.take (k + 1) = headerMarker k ∧ line.drop (k + 1) ≠ [] then
    [line, line.drop (k + 1)]
  else [line]

/-- One whole `re.sub(r'^<marker>(.+)', ..., flags=re.M)` pass over the
text for the level-`k` marker. -/
def subHeaderPass (k : Nat) (text : String) : String :=
  String.mk (joinSep ['\n'] (((splitNl text.data).map (expandLine k)).flatten))

/-- `DocumentProcessor.text_to_markdown`: duplicate the text of every
level-2, level-3 and level-4 heading line on the following line (three
sequential substitution passes); blank input is returned unchanged. -/
def text_to_markdown (text : String) : String :=
  if pyStrip text = "" then text
  else subHeaderPass 4 (subHeaderPass 3 (subHeaderPass 2 text))

/-! ## DocumentProcessor.split_text_by_markdown_headers -/

/-- The `header_patterns` matching loop: try the level-1..4 regexes
`^#{k} (.+)$` in order, returning the level and the raw capture group. -/
def matchHeader (line : List Char) : Option (Nat × List Char) :=
  if line.take 2 = headerMarker 1 ∧ line.drop 2 ≠ [] then some (1, line.drop 2)
  else if line.take 3 = headerMarker 2 ∧ line.drop 3 ≠ [] then some (2, line.drop 3)
  else if line.take 4 = headerMarker 3 ∧ line.drop 4 ≠ [] then some (3, line.drop 4)
  else if line.take 5 = headerMarker 4 ∧ line.drop 5 ≠ [] then some (4, line.drop 5)
  else none

/-- Loop state of `split_text_by_markdown_headers`. -/
structure MdState where
  chunks : List Chunk
  current_chunk : List String
  current_header : String
  document_title : String
  header_stack : List String
deriving DecidableEq, Repr

/-- Build the chunk dictionary appended by the structure-aware splitter,
tagging the content with the current header, header path and document
title. -/
def mkMdChunk (tc : String → Nat) (filename : String) (st : MdState) (content : String) : Chunk :=
  { content := content,
    metadata :=
      { source := filename,
        header := some st.current_header,
        header_path := some (pyJoin " -> " st.header_stack),
        document_title := st.document_title },
    tokens := tc content }

/-- Flush of the accumulated lines (used both on hitting a heading and at
end of input): join with newlines, strip, and append as a chunk when
non-empty. -/
def mdFlush (tc : String → Nat) (filename : String) (st : MdState) : List Chunk :=
  if st.current_chunk ≠ [] then
    let chunk_content := pyStrip (pyJoin "\n" st.current_chunk)
    if chunk_content ≠ "" then st.chunks ++ [mkMdChunk tc filename st chunk_content]
    else st.chunks
  else st.chunks

/-- One iteration of the line loop of `split_text_by_markdown_headers`. -/
def mdStep (tc : String → Nat) (dp : DocumentProcessor) (filename : String)
    (st : MdState) (rawLine : String) : MdState :=
  let line := pyStrip rawLine
  if line = "" then
    if st.current_chunk ≠ [] then { st with current_chunk := st.current_chunk ++ [""] }
    else st
  else
    match matchHeader line.data with
    | some lv =>
      let header_text := String.mk (trimL lv.2)
      let chunks2 := mdFlush tc filename st
      let document_title2 := if lv.1 = 1 then header_text else st.document_title
      let header_stack2 :=
        if lv.1 = 1 then [header_text]
        else st.header_stack.take (lv.1 - 1) ++ [header_text]
      { chunks := chunks2, current_chunk := [line], current_header := header_text,
        document_title := document_title2, header_stack := header_stack2 }
    | none =>
      let cur := st.current_chunk ++ [line]
      let current_content := pyJoin "\n" cur
      if dp.chunk_size < tc current_content then
        if 1 < cur.length then
          let chunk_content := pyStrip (pyJoin "\n" cur.dropLast)
          let chunks2 :=
            if chunk_content ≠ "" then st.chunks ++ [mkMdChunk tc filename st chunk_content]
            else st.chunks
          { st with chunks := chunks2, current_chunk := [cur.getLastD ""] }
        else
          let words := pyWords line
          let half_point := words.length / 2
          let first_half := pyJoin " " (words.take half_point)
          let second_half := pyJoin " " (words.drop half_point)
          let chunk_content := pyStrip first_half
          let chunks2 :=
            if chunk_content ≠ "" then st.chunks ++ [mkMdChunk tc filename st chunk_content]
            else st.chunks
          { st with chunks := chunks2, current_chunk := [second_half] }
      else { st with current_chunk := cur }

/-- Initial state of the structure-aware splitter. -/
def mdInit (filename : String) : MdState :=
  { chunks := [], current_chunk := [], current_header := "Документ",
    document_title := filename, header_stack := ["Документ"] }

/-- `DocumentProcessor.split_text_by_markdown_headers`. -/
def split_text_by_markdown_headers (tc : String → Nat) (dp : DocumentProcessor)
    (text filename : String) (use_markdown : Bool) : List Chunk :=
  if pyStrip text = "" then []
  else
    let text2 := if use_markdown then text_to_markdown text else text
    let lines := (splitNl text2.data).map String.mk
    let st := lines.foldl (mdStep tc dp filename) (mdInit filename)
    mdFlush tc filename st

/-! ## DocumentProcessor.split_text (paragraph/sentence mode) -/

/-- Loop state of the paragraph-mode splitter. -/
structure ParaState where
  chunks : List Chunk
  current_chunk : String
deriving DecidableEq, Repr

/-- Chunk dictionary appended by the paragraph-mode splitter (metadata has
only `source` and `document_title`, both the file name). -/
def mkParaChunk (tc : String → Nat) (filename content : String) : Chunk :=
  { content := content,
    metadata :=
      { source := filename, document_title := filename, header := none, header_path := none },
    tokens := tc content }

/-- One iteration of the inner sentence loop (greedy packing of sentences
by character length). -/
def sentenceStep (tc : String → Nat) (dp : DocumentProcessor) (filename : String)
    (st : ParaState) (rawSentence : String) : ParaState :=
  let sentence := pyStrip rawSentence
  if sentence = "" then st
  else if st.current_chunk.length + sentence.length + 1 ≤ dp.chunk_size then
    if st.current_chunk ≠ "" then { st with current_chunk := st.current_chunk ++ " " ++ sentence }
    else { st with current_chunk := sentence }
  else if st.current_chunk ≠ "" then
    { chunks := st.chunks ++ [mkParaChunk tc filename st.current_chunk],
      current_chunk := sentence }
  else { st with current_chunk := sentence }

/-- One iteration of the outer paragraph loop (greedy packing of
paragraphs by character length; an oversized paragraph is re-split on
sentence punctuation). -/
def paragraphStep (tc : String → Nat) (dp : DocumentProcessor) (filename : String)
    (st : ParaState) (rawPara : String) : ParaState :=
  let paragraph := pyStrip rawPara
  if paragraph = "" then st
  else if st.current_chunk.length + paragraph.length + 1 ≤ dp.chunk_size then
    if st.current_chunk ≠ "" then
      { st with current_chunk := st.current_chunk ++ "\n\n" ++ paragraph }
    else { st with current_chunk := paragraph }
  else
    let chunks2 :=
      if st.current_chunk ≠ "" then st.chunks ++ [mkParaChunk tc filename st.current_chunk]
      else st.chunks
    if dp.chunk_size < paragraph.length then
      (sentSplit paragraph).foldl (sentenceStep tc dp filename)
        { chunks := chunks2, current_chunk := "" }
    else { chunks := chunks2, current_chunk := paragraph }

/-- `DocumentProcessor.split_text`: dispatch to the structure-aware
splitter when markdown processing is on, else paragraph mode. -/
def split_text (tc : String → Nat) (dp : DocumentProcessor)
    (text filename : String) (use_markdown : Bool) : List Chunk :=
  if use_markdown then split_text_by_markdown_headers tc dp text filename use_markdown
  else if pyStrip text = "" then []
  else
    let paragraphs := paraSplit text
    let st := paragraphs.foldl (paragraphStep tc dp filename) { chunks := [], current_chunk := "" }
    if st.current_chunk ≠ "" then st.chunks ++ [mkParaChunk tc filename st.current_chunk]
    else st.chunks

/-! ## KnowledgeBase -/

/-- The in-memory knowledge base: the optional FAISS flat L2 index
(modelled as the list of stored vectors, in insertion order), the parallel
chunk and metadata arrays, and the embedding model name. -/
structure KnowledgeBase where
  embedding_model : String
  index : Option (List (List ℚ))
  chunks : List Chunk
  metadatas : List ChunkMetadata
deriving DecidableEq

/-- A freshly constructed `KnowledgeBase(client, embedding_model)`. -/
def KnowledgeBase.init (embedding_model : String) : KnowledgeBase :=
  { embedding_model := embedding_model, index := none, chunks := [], metadatas := [] }

/-- The default `embedding_model` argument of `KnowledgeBase.__init__`. -/
def defaultEmbeddingModel : String := "text-embedding-ada-002"

/-- `numpy.random.rand n`: a vector of `n` pseudo-random values; the draw
itself is abstracted by a function of the position, only the length is
determined. -/
def npRandomRand (draw : Nat → ℚ) (n : Nat) : List ℚ := (List.range n).map draw

/-- `KnowledgeBase.get_embedding`: ask the provider for an embedding of
`text` under the configured model; on any provider failure, return a
random vector of hardcoded length 1536 instead of propagating the
failure. -/
def get_embedding (provider : String → String → Option (List ℚ)) (draw : Nat → ℚ)
    (embedding_model text : String) : List ℚ :=
  match provider embedding_model text with
  | some v => v
  | none => npRandomRand draw 1536

/-- `KnowledgeBase.build_from_documents`: fail on an empty document list;
otherwise set `chunks` to the input, `metadatas` to the documents'
metadata in order, and the index to the embeddings of the documents'
contents in order. -/
def KnowledgeBase.build_from_documents (kb : KnowledgeBase)
    (provider : String → String → Option (List ℚ)) (draw : Nat → ℚ)
    (documents : List Chunk) : Except String KnowledgeBase :=
  if documents = [] then Except.error "Нет документов для построения базы знаний"
  else Except.ok { kb with
    chunks := documents,
    metadatas := documents.map (fun d => d.metadata),
    index := some (documents.map (fun d =>
      get_embedding provider draw kb.embedding_model d.content)) }

/-- Squared Euclidean distance, the metric of `faiss.IndexFlatL2`. -/
def squaredL2 (u v : List ℚ) : ℚ :=
  ((u.zip v).map (fun p => (p.1 - p.2) * (p.1 - p.2))).sum

/-- Comparison of (index, distance) pairs by distance. -/
def byDist (a b : Nat × ℚ) : Prop := a.2 ≤ b.2

instance : DecidableRel byDist := fun a b => inferInstanceAs (Decidable (a.2 ≤ b.2))

instance : IsTotal (Nat × ℚ) byDist := ⟨fun a b => le_total a.2 b.2⟩

instance : IsTrans (Nat × ℚ) byDist := ⟨fun _ _ _ h1 h2 => le_trans h1 h2⟩

/-- `index.search(query, k)` on a flat L2 index: the `k` stored vectors
nearest to the query, as (position, squared distance) pairs in ascending
distance order. -/
def faissSearch (vecs : List (List ℚ)) (q : List ℚ) (k : Nat) : List (Nat × ℚ) :=
  (List.insertionSort byDist ((vecs.map (fun v => squaredL2 q v)).enum)).take k

/-- One search result `{'content': ..., 'metadata': ..., 'distance': ...}`. -/
structure SearchResult where
  content : String
  metadata : ChunkMetadata
  distance : ℚ
deriving DecidableEq

/-- The result-collection loop of `KnowledgeBase.search`: hits whose index
is not below `len(chunks)` are skipped; for the rest the content is read
from `chunks[idx]` and the metadata from `metadatas[idx]`, and an index
out of range of `metadatas` raises (modelled as `none`). -/
def searchCollect (chunks : List Chunk) (metadatas : List ChunkMetadata) :
    List (Nat × ℚ) → Option (List SearchResult)
  | [] => some []
  | hit :: rest =>
    if hit.1 < chunks.length then
      match metadatas[hit.1]? with
      | some md =>
        (searchCollect chunks metadatas rest).map
          (fun rs => { content := (chunks.getD hit.1 default).content,
                       metadata := md, distance := hit.2 } :: rs)
      | none => none
    else searchCollect chunks metadatas rest

/-- `KnowledgeBase.search`: empty result when the index is unbuilt or the
chunk list is empty; otherwise embed the query and collect the
`min k (number of chunks)` nearest stored vectors in ascending distance
order (`none` models an escaping exception). -/
def KnowledgeBase.search (kb : KnowledgeBase)
    (provider : String → String → Option (List ℚ)) (draw : Nat → ℚ)
    (query : String) (k : Nat) : Option (List SearchResult) :=
  match kb.index with
  | none => some []
  | some vecs =>
    if kb.chunks.length = 0 then some []
    else
      let query_embedding := get_embedding provider draw kb.embedding_model query
      searchCollect kb.chunks kb.metadatas
        (faissSearch vecs query_embedding (min k kb.chunks.length))

/-! ## Persistence -/

/-- Contents of the binary `.metadata` pickle sidecar. -/
structure PickleBlob where
  chunks : List Chunk
  metadatas : List ChunkMetadata
  embedding_model : String
deriving DecidableEq

/-- One entry of the diagnostic `_metadata.json` sidecar. -/
structure JsonChunkInfo where
  chunk_id : Nat
  content_preview : String
  tokens : Nat
  metadata : ChunkMetadata
deriving DecidableEq

/-- Contents of the diagnostic `_metadata.json` sidecar. -/
structure JsonMetadataFile where
  timestamp : String
  embedding_model : String
  total_chunks : Nat
  chunks : List JsonChunkInfo
deriving DecidableEq

/-- Contents of the `_statistics.json` sidecar. -/
structure StatisticsFile where
  timestamp : String
  total_chunks : Nat
  total_tokens : Nat
  sources : List (String × Nat)
  document_titles : List (String × Nat)
  headers : List (String × Nat)
deriving DecidableEq

/-- The files produced at an index path by `save_to_file` (each `none`
when absent on disk). -/
structure SavedFiles where
  indexFile : Option (List (List ℚ))
  metadataFile : Option PickleBlob
  jsonMetadataFile : Option JsonMetadataFile
  statisticsFile : Option StatisticsFile
deriving DecidableEq

/-- The ≤200-character content preview written to the diagnostic JSON:
`content[:200] + '...'` when the content exceeds 200 characters, the
content itself otherwise. -/
def content_preview_of (content : String) : String :=
  if 200 < content.length then String.mk (content.data.take 200) ++ "..." else content

/-- `KnowledgeBase.save_metadata_to_file`: the diagnostic JSON dump with a
preview, token count and metadata per chunk. -/
def KnowledgeBase.save_metadata_to_file (kb : KnowledgeBase) (ts : String) : JsonMetadataFile :=
  { timestamp := ts,
    embedding_model := kb.embedding_model,
    total_chunks := kb.chunks.length,
    chunks := kb.chunks.enum.map (fun ic =>
      { chunk_id := ic.1, content_preview := content_preview_of ic.2.content,
        tokens := ic.2.tokens, metadata := ic.2.metadata }) }

/-- One update of a frequency table (`d[key] = d.get(key, 0) + 1`),
keeping keys in first-occurrence order as a Python dict does. -/
def freqAdd (acc : List (String × Nat)) (key : String) : List (String × Nat) :=
  if acc.any (fun p => p.1 = key) then
    acc.map (fun p => if p.1 = key then (p.1, p.2 + 1) else p)
  else acc ++ [(key, 1)]

/-- Comparison used by `sorted(..., key=lambda x: x[1], reverse=True)`. -/
def byCountDesc (a b : String × Nat) : Prop := b.2 ≤ a.2

instance : DecidableRel byCountDesc := fun a b => inferInstanceAs (Decidable (b.2 ≤ a.2))

/-- A frequency table of the given keys, sorted descending by count. -/
def sortedFreq (keys : List String) : List (String × Nat) :=
  List.insertionSort byCountDesc (keys.foldl freqAdd [])

/-- `KnowledgeBase.save_metadata_statistics`. -/
def KnowledgeBase.save_metadata_statistics (kb : KnowledgeBase) (ts : String) : StatisticsFile :=
  { timestamp := ts,
    total_chunks := kb.chunks.length,
    total_tokens := (kb.chunks.map (fun c => c.tokens)).sum,
    sources := sortedFreq (kb.chunks.map (fun c => c.metadata.source)),
    document_titles := sortedFreq (kb.chunks.map (fun c => c.metadata.document_title)),
    headers := sortedFreq (kb.chunks.map (fun c => (c.metadata.header).getD "unknown")) }

/-- `KnowledgeBase.save_to_file`: fails when the index is unbuilt,
otherwise writes the index file, the binary pickle sidecar with
`{chunks, metadatas, embedding_model}`, the diagnostic JSON sidecar and
the statistics sidecar. -/
def KnowledgeBase.save_to_file (kb : KnowledgeBase) (ts : String) : Except String SavedFiles :=
  match kb.index with
  | none => Except.error "База знаний не построена"
  | some vecs => Except.ok
    { indexFile := some vecs,
      metadataFile := some
        { chunks := kb.chunks, metadatas := kb.metadatas, embedding_model := kb.embedding_model },
      jsonMetadataFile := some (kb.save_metadata_to_file ts),
      statisticsFile := some (kb.save_metadata_statistics ts) }

/-- `KnowledgeBase.load_from_file`: `false` when the index file is absent;
otherwise the index is read, then the binary sidecar restores
`chunks`/`metadatas`/`embedding_model` exactly; failing that, the
diagnostic JSON rebuilds the chunks with the preview as content; failing
both, `false` (with the index field already replaced). -/
def KnowledgeBase.load_from_file (kb : KnowledgeBase) (files : SavedFiles) :
    KnowledgeBase × Bool :=
  match files.indexFile with
  | none => (kb, false)
  | some vecs =>
    match files.metadataFile with
    | some blob =>
      ({ kb with
          index := some vecs, chunks := blob.chunks, metadatas := blob.metadatas,
          embedding_model := blob.embedding_model }, true)
    | none =>
      match files.jsonMetadataFile with
      | some jm =>
        let chunks2 : List Chunk := jm.chunks.map (fun ci =>
          { content := ci.content_preview, metadata := ci.metadata, tokens := ci.tokens })
        ({ kb with
            index := some vecs, chunks := chunks2,
            metadatas := chunks2.map (fun c => c.metadata),
            embedding_model := jm.embedding_model }, true)
      | none => ({ kb with index := some vecs }, false)

/-! ## Assistant.ask_question -/

/-- One chat message `{"role": ..., "content": ...}`. -/
structure ChatMessage where
  role : String
  content : String
deriving DecidableEq

/-- The prompt texts read from `prompts.json`. -/
structure Prompts where
  system_prompt : String
  no_documents : String
  processing_error : String
deriving DecidableEq

/-- The GPT/search configuration fields of the assistant. -/
structure GptConfig where
  gpt_temperature : ℚ
  gpt_max_tokens : Nat
  search_k : Nat
deriving DecidableEq

/-- One entry of the `sources` list of an answer. -/
structure AnswerSource where
  source : String
  content_preview : String
  relevance_score : ℚ
deriving DecidableEq

/-- The response dictionary of `Assistant.ask_question` (`error` is absent
on success, `question` is absent on the error paths). -/
structure AnswerResult where
  answer : String
  sources : List AnswerSource
  tokens_used : Nat
  error : Option String
  question : Option String
deriving DecidableEq

/-- Python `repr` of a string (quote-escaping inside the text is not
modelled; no claim inspects the context block). -/
def pyStrRepr (s : String) : String := "\x27" ++ s ++ "\x27"

/-- Python `repr`/f-string rendering of a metadata dictionary, keys in
insertion order. -/
def metadataRepr (m : ChunkMetadata) : String :=
  "\x7b" ++ pyJoin ", " (
    ["\x27source\x27: " ++ pyStrRepr m.source]
    ++ (match m.header with
        | some h => ["\x27header\x27: " ++ pyStrRepr h]
        | none => [])
    ++ (match m.header_path with
        | some p => ["\x27header_path\x27: " ++ pyStrRepr p]
        | none => [])
    ++ ["\x27document_title\x27: " ++ pyStrRepr m.document_title]) ++ "\x7d"

/-- The context block assembled from the retrieved documents. -/
def contextOf (docs : List SearchResult) : String :=
  pyJoin "\n\n" (docs.enum.map (fun id2 =>
    "Фрагмент " ++ toString (id2.1 + 1) ++ " (metadata: " ++ metadataRepr id2.2.metadata
      ++ "):\n" ++ id2.2.content))

/-- The per-result source entry of a successful answer. -/
def sourceEntry (d : SearchResult) : AnswerSource :=
  { source := d.metadata.source, content_preview := content_preview_of d.content,
    relevance_score := 1 - d.distance }

/-- The canned no-relevant-documents response. -/
def noDocumentsResult (prompts : Prompts) : AnswerResult :=
  { answer := prompts.no_documents, sources := [], tokens_used := 0,
    error := some "no_documents", question := none }

/-- The canned processing-error response (`error` holds `str(e)`,
abstracted as a marker). -/
def processingErrorResult (prompts : Prompts) (e : String) : AnswerResult :=
  { answer := prompts.processing_error, sources := [], tokens_used := 0,
    error := some e, question := none }

/-- `Assistant.ask_question`: search the knowledge base for `search_k`
relevant documents; with none found, return the canned no-documents
answer without calling the chat model; otherwise assemble the two-message
prompt, call the chat model (`llm` oracle) with the resolved temperature,
and package the answer with per-source relevance `1 - distance`.  The
second component records whether the chat model was invoked. -/
def ask_question
    (provider : String → String → Option (List ℚ)) (draw : Nat → ℚ)
    (llm : List ChatMessage → ℚ → Nat → Option (String × Option Nat))
    (prompts : Prompts) (cfg : GptConfig) (kb : KnowledgeBase)
    (question : String) (temperature : Option ℚ) : AnswerResult × Bool :=
  match kb.search provider draw question cfg.search_k with
  | none => (processingErrorResult prompts "list index out of range", false)
  | some [] => (noDocumentsResult prompts, false)
  | some relevant_docs =>
    let context := contextOf relevant_docs
    let messages : List ChatMessage :=
      [{ role := "system", content := prompts.system_prompt },
       { role := "user",
         content := "Контекст для ответа:\n" ++ context ++ "\n\nВопрос: " ++ question }]
    let temp := temperature.getD cfg.gpt_temperature
    match llm messages temp cfg.gpt_max_tokens with
    | none => (processingErrorResult prompts "llm call failed", true)
    | some ans =>
      ({ answer := ans.1, sources := relevant_docs.map sourceEntry,
         tokens_used := (ans.2).getD 0, error := none, question := some question }, true)

/-! ## Statement-level definitions -/

/-- Modelled from the spec: the embedding provider itself is external to
the repository, and §3 states that the vector dimension is a constant of
the provider model; for the configured default model
`text-embedding-ada-002` that constant is 1536. -/
def expectedProviderDim (m : String) : Option Nat :=
  if m = defaultEmbeddingModel then some 1536 else none

/-- The flattened character data of all chunk contents, in order. -/
def chunksChars (cs : List Chunk) : List Char :=
  (cs.map (fun c => c.content.data)).flatten

/-- The content-preservation property of the segmenter exactly as the
spec claims it: every chunk is non-empty, and the concatenated chunk
contents, ignoring (inserted) whitespace, contain the whole original
text's non-whitespace content. -/
def claimedPreservation (tc : String → Nat) (dp : DocumentProcessor)
    (text filename : String) (use_markdown : Bool) : Prop :=
  (∀ c ∈ split_text tc dp text filename use_markdown, c.content ≠ "") ∧
  (text.data.filter inkChar).Sublist
    ((chunksChars (split_text tc dp text filename use_markdown)).filter inkChar)

/-- `needle` occurs (at least) twice, at disjoint positions, in `hay`. -/
def containsTwice (needle hay : List Char) : Prop :=
  ∃ l1 l2 l3, hay = l1 ++ needle ++ l2 ++ needle ++ l3

/-! ## Concrete witness inputs -/

/-- Witness metadata (paragraph-mode shape). -/
def wMeta : ChunkMetadata :=
  { source := "doc.txt", document_title := "doc.txt", header := none, header_path := none }

/-- Witness chunk embedded at the origin by `wProvider`. -/
def wChunkA : Chunk := { content := "alpha", metadata := wMeta, tokens := 1 }

/-- Witness chunk embedded at (3, 4) by `wProvider`. -/
def wChunkB : Chunk := { content := "beta", metadata := wMeta, tokens := 1 }

/-- Witness chunk whose content has 201 characters. -/
def wChunkLong : Chunk :=
  { content := String.mk (List.replicate 201 'a'), metadata := wMeta, tokens := 50 }

/-- Witness embedding provider: deterministic vectors for the witness
contents and the witness query, failure on anything else. -/
def wProvider : String → String → Option (List ℚ) := fun _ text =>
  if text = "alpha" then some [0, 0]
  else if text = "beta" then some [3, 4]
  else if text = "query" then some [1, 0]
  else none

/-- Witness random draw. -/
def wDraw : Nat → ℚ := fun _ => 1 / 2

/-- Witness document list. -/
def wDocs : List Chunk := [wChunkA, wChunkB]

/-- Witness prompts. -/
def wPrompts : Prompts :=
  { system_prompt := "sys", no_documents := "Документы не найдены", processing_error := "Ошибка" }

/-- Witness GPT configuration. -/
def wCfg : GptConfig := { gpt_temperature := 0, gpt_max_tokens := 100, search_k := 5 }

/-- Witness chat-model oracle. -/
def wLLM : List ChatMessage → ℚ → Nat → Option (String × Option Nat) :=
  fun _ _ _ => some ("ответ", some 10)

/-- The witness knowledge base produced by `build_from_documents` on
`wDocs` under `wProvider`. -/
def wBuilt : KnowledgeBase :=
  { embedding_model := defaultEmbeddingModel, index := some [[0, 0], [3, 4]],
    chunks := wDocs, metadatas := [wMeta, wMeta] }

/-- The witness knowledge base holding the single long chunk. -/
def wKBLong : KnowledgeBase :=
  { embedding_model := defaultEmbeddingModel, index := some [[0, 0]],
    chunks := [wChunkLong], metadatas := [wMeta] }

/-! ## Basic lemmas about the string primitives -/

theorem filter_dropWhile_eq (p q : Char → Bool) (h : ∀ c, q c = true → p c = false) :
    ∀ l : List Char, (l.dropWhile q).filter p = l.filter p := by
  intro l
  induction l with
  | nil => rfl
  | cons c cs ih =>
    by_cases hq : q c = true
    · rw [List.dropWhile_cons_of_pos hq, ih, List.filter_cons_of_neg (by simp [h c hq])]
    · rw [List.dropWhile_cons_of_neg hq]

theorem filter_trimL (p : Char → Bool) (hpw : ∀ c, wsChar c = true → p c = false)
    (l : List Char) : (trimL l).filter p = l.filter p := by
  unfold trimL
  rw [List.filter_reverse, filter_dropWhile_eq p wsChar hpw, List.filter_reverse,
    List.reverse_reverse, filter_dropWhile_eq p wsChar hpw]

theorem filter_eq_nil_of_ws (p : Char → Bool) (hpw : ∀ c, wsChar c = true → p c = false)
    (l : List Char) (h : ∀ c ∈ l, wsChar c = true) : l.filter p = [] := by
  exact List.filter_eq_nil_iff.mpr (fun c hc => by simp [hpw c (h c hc)])

theorem trimL_nil_all_ws (l : List Char) (h : trimL l = []) : ∀ c ∈ l, wsChar c = true := by
  intro c hc
  by_contra hws
  have h1 : l.filter (fun c => !wsChar c) = [] := by
    rw [← filter_trimL (fun c => !wsChar c) (by intro c h2; simp [h2]) l, h]
    rfl
  have := List.filter_eq_nil_iff.mp h1 c hc
  simp at this
  exact hws (by simp [this])

theorem splitNl_ne_nil (l : List Char) : splitNl l ≠ [] := by
  induction l with
  | nil => simp [splitNl]
  | cons c cs ih =>
    unfold splitNl
    match h : splitNl cs with
    | [] => simp
    | p :: ps => by_cases hc : c = '\n' <;> simp [hc]

theorem joinSep_splitNl (l : List Char) : joinSep ['\n'] (splitNl l) = l := by
  induction l with
  | nil => rfl
  | cons c cs ih =>
    unfold splitNl
    match h : splitNl cs with
    | [] => exact absurd h (splitNl_ne_nil cs)
    | p :: ps =>
      rw [h] at ih
      by_cases hc : c = '\n'
      · subst hc
        simp only [if_pos rfl]
        match ps with
        | [] => simpa [joinSep] using ih
        | q :: qs => simpa [joinSep] using ih
      · simp only [if_neg hc]
        match ps with
        | [] => simpa [joinSep] using ih
        | q :: qs => simpa [joinSep] using ih

theorem filter_joinSep (p : Char → Bool) (sep : List Char)
    (hsep : ∀ c ∈ sep, p c = false) :
    ∀ parts : List (List Char),
      (joinSep sep parts).filter p = (parts.map (List.filter p)).flatten := by
  intro parts
  induction parts with
  | nil => rfl
  | cons x xs ih =>
    match xs with
    | [] => simp [joinSep]
    | y :: ys =>
      have hsepnil : sep.filter p = [] :=
        List.filter_eq_nil_iff.mpr (fun c hc => by simp [hsep c hc])
      simp only [joinSep, List.filter_append, hsepnil, List.map_cons, List.flatten_cons,
        List.append_nil, List.nil_append] at *
      rw [ih]

theorem splitNl_no_nl (l : List Char) (h : '\n' ∉ l) : splitNl l = [l] := by
  induction l with
  | nil => rfl
  | cons c cs ih =>
    have hc : c ≠ '\n' := fun hc => h (hc ▸ List.mem_cons_self c cs)
    have hcs : '\n' ∉ cs := fun h2 => h (List.mem_cons_of_mem c h2)
    unfold splitNl
    rw [ih hcs]
    simp [hc]

theorem splitNl_cons (c : Char) (rest : List Char) :
    splitNl (c :: rest) =
      match splitNl rest with
      | [] => [[c]]
      | p :: ps => if c = '\n' then [] :: p :: ps else (c :: p) :: ps := rfl

theorem splitNl_append_nl (l1 l2 : List Char) (h : '\n' ∉ l1) :
    splitNl (l1 ++ '\n' :: l2) = l1 :: splitNl l2 := by
  induction l1 with
  | nil =>
    rw [List.nil_append, splitNl_cons]
    match h2 : splitNl l2 with
    | [] => exact absurd h2 (splitNl_ne_nil l2)
    | p :: ps => simp
  | cons c cs ih =>
    have hc : c ≠ '\n' := fun hc => h (hc ▸ List.mem_cons_self c cs)
    have hcs : '\n' ∉ cs := fun h2 => h (List.mem_cons_of_mem c h2)
    rw [List.cons_append, splitNl_cons, ih hcs]
    simp [hc]

theorem mem_splitNl_no_nl (l : List Char) : ∀ part ∈ splitNl l, '\n' ∉ part := by
  induction l with
  | nil => intro part hp; simp [splitNl] at hp; simp [hp]
  | cons c cs ih =>
    intro part hp
    match h : splitNl cs with
    | [] => exact absurd h (splitNl_ne_nil cs)
    | p :: ps =>
      have ih2 := fun q hq => ih q (h ▸ hq)
      by_cases hc : c = '\n'
      · simp only [splitNl_cons, h, hc, if_true, List.mem_cons] at hp
        rcases hp with rfl | rfl | hp
        · simp
        · exact ih2 _ (List.mem_cons_self _ _)
        · exact ih2 part (List.mem_cons_of_mem p hp)
      · simp only [splitNl_cons, h, hc, if_false, List.mem_cons] at hp
        rcases hp with rfl | hp
        · intro hmem
          rcases List.mem_cons.mp hmem with h1 | h1
          · exact hc h1.symm
          · exact ih2 _ (List.mem_cons_self _ _) h1
        · exact ih2 part (List.mem_cons_of_mem p hp)

/-! ## C6: structure-aware header path -/

/-- C6: structure-aware segmentation of the document with heading lines
"# A", "## B", "### C" followed by body text produces a chunk whose
metadata has header_path "A -> B -> C", header "C" and document_title
"A". -/
theorem c6_header_path :
    ∃ c ∈ split_text count_tokens_fallback { chunk_size := 1500, chunk_overlap := 150 }
        "# A\n## B\n### C\nbody text" "doc.txt" true,
      c.metadata.header_path = some "A -> B -> C" ∧ c.metadata.header = some "C" ∧
        c.metadata.document_title = "A" := by decide

/-! ## C8: embedding fallback dimensionality -/

/-- C8: for every input text, when the embedding provider call fails,
get_embedding does not propagate the failure but returns the random
fallback vector, whose length equals the expected dimensionality of the
configured (default) provider model. -/
theorem c8_embedding_fallback (provider : String → String → Option (List ℚ))
    (draw : Nat → ℚ) (text : String)
    (hfail : provider defaultEmbeddingModel text = none) :
    get_embedding provider draw defaultEmbeddingModel text = npRandomRand draw 1536 ∧
      expectedProviderDim defaultEmbeddingModel =
        some (get_embedding provider draw defaultEmbeddingModel text).length := by
  constructor
  · simp [get_embedding, hfail]
  · simp [get_embedding, hfail, expectedProviderDim, npRandomRand]

/-- Witness for C8 at a concretely failing provider. -/
theorem c8_embedding_fallback_witness :
    get_embedding (fun _ _ => none) wDraw defaultEmbeddingModel "запрос" = npRandomRand wDraw 1536 ∧
      expectedProviderDim defaultEmbeddingModel =
        some (get_embedding (fun _ _ => none) wDraw defaultEmbeddingModel "запрос").length :=
  c8_embedding_fallback (fun _ _ => none) wDraw "запрос" rfl

/-! ## C5: no-documents answer path -/

/-- C5: whenever the index store is unbuilt, or the search comes back
empty, ask_question returns the canned no-documents answer with error
"no_documents", zero tokens and no sources, and does not invoke the chat
model. -/
theorem c5_no_documents (provider : String → String → Option (List ℚ)) (draw : Nat → ℚ)
    (llm : List ChatMessage → ℚ → Nat → Option (String × Option Nat))
    (prompts : Prompts) (cfg : GptConfig) (kb : KnowledgeBase)
    (question : String) (temperature : Option ℚ)
    (h : kb.index = none ∨ kb.search provider draw question cfg.search_k = some []) :
    ask_question provider draw llm prompts cfg kb question temperature =
      ({ answer := prompts.no_documents, sources := [], tokens_used := 0,
         error := some "no_documents", question := none }, false) := by
  have hs : kb.search provider draw question cfg.search_k = some [] := by
    rcases h with h | h
    · simp [KnowledgeBase.search, h]
    · exact h
  simp [ask_question, hs, noDocumentsResult]

/-- Witness for C5 on a concrete unbuilt knowledge base. -/
theorem c5_no_documents_witness :
    ask_question wProvider wDraw wLLM wPrompts wCfg (KnowledgeBase.init defaultEmbeddingModel)
        "вопрос" none =
      ({ answer := wPrompts.no_documents, sources := [], tokens_used := 0,
         error := some "no_documents", question := none }, false) :=
  c5_no_documents wProvider wDraw wLLM wPrompts wCfg _ "вопрос" none (Or.inl rfl)

/-! ## C3: save/load round trip through the binary sidecar -/

/-- C3: for every built knowledge base, save followed by load on a fresh
knowledge base (binary metadata sidecar present, as save writes it)
returns true and restores chunks, metadatas and embedding_model exactly. -/
theorem c3_roundtrip (kb : KnowledgeBase) (vecs : List (List ℚ))
    (hbuilt : kb.index = some vecs) (ts fresh_model : String) :
    ∃ files, kb.save_to_file ts = Except.ok files ∧
      ((KnowledgeBase.init fresh_model).load_from_file files).2 = true ∧
      ((KnowledgeBase.init fresh_model).load_from_file files).1.chunks = kb.chunks ∧
      ((KnowledgeBase.init fresh_model).load_from_file files).1.metadatas = kb.metadatas ∧
      ((KnowledgeBase.init fresh_model).load_from_file files).1.embedding_model
        = kb.embedding_model := by
  refine ⟨{ indexFile := some vecs,
            metadataFile := some
              { chunks := kb.chunks, metadatas := kb.metadatas,
                embedding_model := kb.embedding_model },
            jsonMetadataFile := some (kb.save_metadata_to_file ts),
            statisticsFile := some (kb.save_metadata_statistics ts) }, ?_, ?_, ?_, ?_, ?_⟩
  · simp [KnowledgeBase.save_to_file, hbuilt]
  all_goals simp [KnowledgeBase.load_from_file, KnowledgeBase.init]

/-- Witness for C3 on the concrete built knowledge base `wBuilt`. -/
theorem c3_roundtrip_witness :
    ∃ files, wBuilt.save_to_file "2024-01-01" = Except.ok files ∧
      ((KnowledgeBase.init "другая").load_from_file files).2 = true ∧
      ((KnowledgeBase.init "другая").load_from_file files).1.chunks = wBuilt.chunks ∧
      ((KnowledgeBase.init "другая").load_from_file files).1.metadatas = wBuilt.metadatas ∧
      ((KnowledgeBase.init "другая").load_from_file files).1.embedding_model
        = wBuilt.embedding_model :=
  c3_roundtrip wBuilt [[0, 0], [3, 4]] rfl "2024-01-01" "другая"

/-! ## C4: degraded load through the diagnostic JSON sidecar -/

/-- C4: when the index file exists, the binary sidecar is missing and the
diagnostic JSON sidecar (as written by save_metadata_to_file) exists, load
returns true and rebuilds every chunk's content from the stored preview:
the first 200 characters plus an ellipsis for originally longer contents,
the verbatim content otherwise. -/
theorem c4_json_fallback (kb : KnowledgeBase) (vecs : List (List ℚ))
    (ts fresh_model : String) (files : SavedFiles)
    (hidx : files.indexFile = some vecs)
    (hbin : files.metadataFile = none)
    (hjson : files.jsonMetadataFile = some (kb.save_metadata_to_file ts)) :
    ((KnowledgeBase.init fresh_model).load_from_file files).2 = true ∧
    ((KnowledgeBase.init fresh_model).load_from_file files).1.chunks.length
      = kb.chunks.length ∧
    ∀ i, i < kb.chunks.length →
      (((KnowledgeBase.init fresh_model).load_from_file files).1.chunks.getD i default).content
        = (if 200 < (kb.chunks.getD i default).content.length
           then String.mk ((kb.chunks.getD i default).content.data.take 200) ++ "..."
           else (kb.chunks.getD i default).content) := by
  refine ⟨?_, ?_, ?_⟩
  · simp [KnowledgeBase.load_from_file, hidx, hbin, hjson]
  · simp [KnowledgeBase.load_from_file, hidx, hbin, hjson, KnowledgeBase.save_metadata_to_file,
      List.enum_length]
  · intro i hi
    have hlen : i < (kb.chunks.enum.map (fun ic =>
        ({ chunk_id := ic.1, content_preview := content_preview_of ic.2.content,
           tokens := ic.2.tokens, metadata := ic.2.metadata } : JsonChunkInfo))).length := by
      simpa [List.enum_length] using hi
    simp only [KnowledgeBase.load_from_file, hidx, hbin, hjson,
      KnowledgeBase.save_metadata_to_file]
    rw [List.getD_eq_getElem _ _ (by simpa [List.enum_length] using hi),
      List.getD_eq_getElem _ _ hi]
    simp [List.getElem_enum, content_preview_of]

set_option maxRecDepth 8192 in
/-- Witness for C4: the long chunk's content is truncated to its first
200 characters plus an ellipsis, and load still reports success. -/
theorem c4_json_fallback_witness :
    (((KnowledgeBase.init "другая").load_from_file
        { indexFile := some [[0, 0]], metadataFile := none,
          jsonMetadataFile := some (wKBLong.save_metadata_to_file "2024-01-01"),
          statisticsFile := none }).2 = true ∧
     ((KnowledgeBase.init "другая").load_from_file
        { indexFile := some [[0, 0]], metadataFile := none,
          jsonMetadataFile := some (wKBLong.save_metadata_to_file "2024-01-01"),
          statisticsFile := none }).1.chunks.length = wKBLong.chunks.length) ∧
    (((KnowledgeBase.init "другая").load_from_file
        { indexFile := some [[0, 0]], metadataFile := none,
          jsonMetadataFile := some (wKBLong.save_metadata_to_file "2024-01-01"),
          statisticsFile := none }).1.chunks.getD 0 default).content
      = String.mk (List.replicate 200 'a') ++ "..." := by
  have h := c4_json_fallback wKBLong [[0, 0]] "2024-01-01" "другая"
    { indexFile := some [[0, 0]], metadataFile := none,
      jsonMetadataFile := some (wKBLong.save_metadata_to_file "2024-01-01"),
      statisticsFile := none } rfl rfl rfl
  refine ⟨⟨h.1, h.2.1⟩, ?_⟩
  have h0 := h.2.2 0 (by decide)
  rw [h0]
  have hc : (wKBLong.chunks.getD 0 default).content = String.mk (List.replicate 201 'a') := rfl
  rw [hc]
  rw [if_pos (by simp [String.length])]
  simp [List.take_replicate]

/-! ## Search lemmas -/

theorem faissSearch_length (vecs : List (List ℚ)) (q : List ℚ) (k : Nat) :
    (faissSearch vecs q k).length = min k vecs.length := by
  simp [faissSearch, List.length_insertionSort, List.enum_length]

theorem faissSearch_sorted (vecs : List (List ℚ)) (q : List ℚ) (k : Nat) :
    List.Pairwise byDist (faissSearch vecs q k) :=
  List.Pairwise.sublist (List.take_sublist _ _) (List.sorted_insertionSort byDist _)

theorem faissSearch_mem_lt (vecs : List (List ℚ)) (q : List ℚ) (k : Nat) :
    ∀ p ∈ faissSearch vecs q k, p.1 < vecs.length := by
  intro p hp
  have h1 : p ∈ List.insertionSort byDist ((vecs.map (fun v => squaredL2 q v)).enum) :=
    (List.take_sublist _ _).subset hp
  have h2 : p ∈ (vecs.map (fun v => squaredL2 q v)).enum :=
    (List.perm_insertionSort byDist _).subset h1
  have h3 := List.mem_enum_iff_getElem?.mp h2
  have h4 : p.1 < (vecs.map (fun v => squaredL2 q v)).length := by
    rcases List.getElem?_eq_some.mp h3 with ⟨h, _⟩
    exact h
  simpa using h4

theorem searchCollect_eq (chunks : List Chunk) (metadatas : List ChunkMetadata)
    (hlen : metadatas.length = chunks.length) (hits : List (Nat × ℚ))
    (hvalid : ∀ p ∈ hits, p.1 < chunks.length) :
    searchCollect chunks metadatas hits =
      some (hits.map (fun p =>
        { content := (chunks.getD p.1 default).content,
          metadata := metadatas.getD p.1 default, distance := p.2 })) := by
  induction hits with
  | nil => rfl
  | cons hit rest ih =>
    have h1 : hit.1 < chunks.length := hvalid hit (List.mem_cons_self _ _)
    have h2 : hit.1 < metadatas.length := by rw [hlen]; exact h1
    unfold searchCollect
    rw [if_pos h1, List.getElem?_eq_getElem h2,
      ih (fun p hp => hvalid p (List.mem_cons_of_mem _ hp))]
    simp [List.getD_eq_getElem _ _ h2, List.getElem?_eq_getElem h2]

theorem build_eq (kb0 : KnowledgeBase) (provider : String → String → Option (List ℚ))
    (draw : Nat → ℚ) (documents : List Chunk) (hne : documents ≠ []) (kb : KnowledgeBase)
    (hbuild : kb0.build_from_documents provider draw documents = Except.ok kb) :
    kb = { kb0 with
            chunks := documents,
            metadatas := documents.map (fun d => d.metadata),
            index := some (documents.map (fun d =>
              get_embedding provider draw kb0.embedding_model d.content)) } := by
  unfold KnowledgeBase.build_from_documents at hbuild
  rw [if_neg hne] at hbuild
  exact (Except.ok.inj hbuild).symm

theorem search_eq_of_parts (em : String) (vecs : List (List ℚ)) (chunks : List Chunk)
    (metadatas : List ChunkMetadata) (provider : String → String → Option (List ℚ))
    (draw : Nat → ℚ) (query : String) (k : Nat)
    (hn : chunks.length ≠ 0) (hlen : metadatas.length = chunks.length)
    (hvlen : vecs.length = chunks.length) :
    KnowledgeBase.search ⟨em, some vecs, chunks, metadatas⟩ provider draw query k =
      some ((faissSearch vecs (get_embedding provider draw em query)
              (min k chunks.length)).map
        (fun p => { content := (chunks.getD p.1 default).content,
                    metadata := metadatas.getD p.1 default, distance := p.2 })) := by
  show (if chunks.length = 0 then some []
        else searchCollect chunks metadatas
          (faissSearch vecs (get_embedding provider draw em query) (min k chunks.length))) = _
  rw [if_neg hn]
  exact searchCollect_eq chunks metadatas hlen _
    (fun p hp => hvlen ▸ faissSearch_mem_lt _ _ _ p hp)

/-! ## C2: search contract -/

/-- C2: for every query and every k ≥ 1, search returns the empty
sequence when the index is unbuilt or the corpus is empty; otherwise, on
an index built from the given documents, it returns exactly
min k (number of documents) results ordered by non-decreasing distance,
each pairing a stored chunk's content and metadata with its distance. -/
theorem c2_search_contract (provider : String → String → Option (List ℚ)) (draw : Nat → ℚ)
    (kb0 kb : KnowledgeBase) (documents : List Chunk) (hne : documents ≠ [])
    (hbuild : kb0.build_from_documents provider draw documents = Except.ok kb) :
    (∀ (kb2 : KnowledgeBase) (query : String) (k : Nat),
        kb2.index = none ∨ kb2.chunks = [] →
        kb2.search provider draw query k = some []) ∧
    (∀ (query : String) (k : Nat), 1 ≤ k →
        ∃ results, kb.search provider draw query k = some results ∧
          results.length = min k documents.length ∧
          results.Pairwise (fun a b => a.distance ≤ b.distance) ∧
          ∀ r ∈ results, ∃ i, i < documents.length ∧
            r.content = (documents.getD i default).content ∧
            r.metadata = (documents.getD i default).metadata) := by
  constructor
  · intro kb2 query k h
    rcases h with h | h
    · simp [KnowledgeBase.search, h]
    · cases hidx : kb2.index with
      | none => simp [KnowledgeBase.search, hidx]
      | some vecs => simp [KnowledgeBase.search, hidx, h]
  · intro query k _
    have hkb := build_eq kb0 provider draw documents hne kb hbuild
    have hn : documents.length ≠ 0 := by simpa [List.length_eq_zero] using hne
    have hsearch := search_eq_of_parts kb0.embedding_model
      (documents.map (fun d => get_embedding provider draw kb0.embedding_model d.content))
      documents (documents.map (fun d => d.metadata)) provider draw query k
      hn (by simp) (by simp)
    rw [hkb]
    refine ⟨_, hsearch, ?_, ?_, ?_⟩
    · rw [List.length_map, faissSearch_length, List.length_map]
      omega
    · rw [List.pairwise_map]
      exact faissSearch_sorted _ _ _
    · intro r hr
      rcases List.mem_map.mp hr with ⟨p, hp, hf⟩
      have hi : p.1 < documents.length := by
        have := faissSearch_mem_lt _ _ _ p hp
        simpa using this
      refine ⟨p.1, hi, ?_, ?_⟩
      · rw [← hf]
      · rw [← hf]
        simp only []
        rw [List.getD_eq_getElem _ _ (by simpa using hi), List.getD_eq_getElem _ _ hi]
        simp

/-- Witness for C2 on the concrete base built from `wDocs`. -/
theorem c2_search_contract_witness :
    ∃ results, wBuilt.search wProvider wDraw "query" 5 = some results ∧
      results.length = min 5 wDocs.length ∧
      results.Pairwise (fun a b => a.distance ≤ b.distance) ∧
      ∀ r ∈ results, ∃ i, i < wDocs.length ∧
        r.content = (wDocs.getD i default).content ∧
        r.metadata = (wDocs.getD i default).metadata :=
  (c2_search_contract wProvider wDraw (KnowledgeBase.init defaultEmbeddingModel) wBuilt wDocs
    (by decide) rfl).2 "query" 5 (by decide)

/-! ## C1: positional alignment invariant -/

/-- C1: after a successful build on a non-empty chunk list the knowledge
base has equally long chunk/metadata arrays matching the index size,
metadatas i equals chunks i's metadata for every valid i, every search
result pairs content and metadata taken from the same position, and
save followed by load restores the aligned state unchanged. -/
theorem c1_positional_alignment (provider : String → String → Option (List ℚ))
    (draw : Nat → ℚ) (kb0 kb : KnowledgeBase) (documents : List Chunk)
    (hne : documents ≠ [])
    (hbuild : kb0.build_from_documents provider draw documents = Except.ok kb) :
    (kb.chunks.length = kb.metadatas.length ∧
      ∀ vecs, kb.index = some vecs → vecs.length = kb.chunks.length) ∧
    (∀ i, i < kb.chunks.length →
      kb.metadatas.getD i default = (kb.chunks.getD i default).metadata) ∧
    (∀ query k results, kb.search provider draw query k = some results →
      ∀ r ∈ results, ∃ i, i < kb.chunks.length ∧
        r.content = (kb.chunks.getD i default).content ∧
        r.metadata = kb.metadatas.getD i default) ∧
    (∀ ts fresh_model, ∃ files, kb.save_to_file ts = Except.ok files ∧
      ((KnowledgeBase.init fresh_model).load_from_file files).2 = true ∧
      ((KnowledgeBase.init fresh_model).load_from_file files).1.chunks = kb.chunks ∧
      ((KnowledgeBase.init fresh_model).load_from_file files).1.metadatas = kb.metadatas ∧
      ((KnowledgeBase.init fresh_model).load_from_file files).1.index = kb.index) := by
  have hkb := build_eq kb0 provider draw documents hne kb hbuild
  subst hkb
  have hn : documents.length ≠ 0 := by simpa [List.length_eq_zero] using hne
  refine ⟨⟨by simp, by intro vecs h; simp at h; simp [← h]⟩, ?_, ?_, ?_⟩
  · intro i hi
    simp only [] at hi ⊢
    rw [List.getD_eq_getElem _ _ (by simpa using hi), List.getD_eq_getElem _ _ (by simpa using hi)]
    simp
  · intro query k results hs
    rw [search_eq_of_parts kb0.embedding_model
      (documents.map (fun d => get_embedding provider draw kb0.embedding_model d.content))
      documents (documents.map (fun d => d.metadata)) provider draw query k
      hn (by simp) (by simp)] at hs
    intro r hr
    rcases List.mem_map.mp ((Option.some.inj hs) ▸ hr) with ⟨p, hp, hf⟩
    have hi : p.1 < documents.length := by
      have := faissSearch_mem_lt _ _ _ p hp
      simpa using this
    exact ⟨p.1, by simpa using hi, by rw [← hf], by rw [← hf]⟩
  · intro ts fresh_model
    exact ⟨_, rfl, rfl, rfl, rfl, rfl⟩

/-- Witness for C1 on the concrete base built from `wDocs`. -/
theorem c1_positional_alignment_witness :
    wBuilt.chunks.length = wBuilt.metadatas.length ∧
    wBuilt.metadatas.getD 1 default = (wBuilt.chunks.getD 1 default).metadata ∧
    (∃ files, wBuilt.save_to_file "2024-01-01" = Except.ok files ∧
      ((KnowledgeBase.init "другая").load_from_file files).1.chunks = wBuilt.chunks) := by
  have h := c1_positional_alignment wProvider wDraw (KnowledgeBase.init defaultEmbeddingModel)
    wBuilt wDocs (by decide) rfl
  refine ⟨h.1.1, h.2.1 1 (by decide), ?_⟩
  rcases h.2.2.2 "2024-01-01" "другая" with ⟨files, h1, _, h3, _⟩
  exact ⟨files, h1, h3⟩

/-! ## C10: paragraph-mode chunk length bound -/

theorem paraState_bound (tc : String → Nat) (dp : DocumentProcessor) (filename : String) :
    ∀ (ps : List String) (st : ParaState),
      (∀ p ∈ ps, (pyStrip p).length ≤ dp.chunk_size) →
      (∀ c ∈ st.chunks, c.content.length ≤ dp.chunk_size + 1) →
      st.current_chunk.length ≤ dp.chunk_size + 1 →
      (∀ c ∈ (ps.foldl (paragraphStep tc dp filename) st).chunks,
          c.content.length ≤ dp.chunk_size + 1) ∧
      (ps.foldl (paragraphStep tc dp filename) st).current_chunk.length
        ≤ dp.chunk_size + 1 := by
  intro ps
  induction ps with
  | nil => intro st _ h1 h2; exact ⟨h1, h2⟩
  | cons p rest ih =>
    intro st hps h1 h2
    have hp : (pyStrip p).length ≤ dp.chunk_size := hps p (List.mem_cons_self _ _)
    have hrest : ∀ q ∈ rest, (pyStrip q).length ≤ dp.chunk_size :=
      fun q hq => hps q (List.mem_cons_of_mem _ hq)
    rw [List.foldl_cons]
    apply ih _ hrest
    · intro c hc
      unfold paragraphStep at hc
      by_cases he : pyStrip p = ""
      · rw [if_pos he] at hc
        exact h1 c hc
      · rw [if_neg he] at hc
        by_cases hfits : st.current_chunk.length + (pyStrip p).length + 1 ≤ dp.chunk_size
        · rw [if_pos hfits] at hc
          by_cases hcur : st.current_chunk ≠ ""
          · rw [if_pos hcur] at hc
            exact h1 c hc
          · rw [if_neg hcur] at hc
            exact h1 c hc
        · rw [if_neg hfits] at hc
          rw [if_neg (by omega : ¬ dp.chunk_size < (pyStrip p).length)] at hc
          simp only [] at hc
          by_cases hcur : st.current_chunk ≠ ""
          · rw [if_pos hcur] at hc
            rcases List.mem_append.mp hc with hcm | hcm
            · exact h1 c hcm
            · rcases List.mem_singleton.mp hcm with rfl
              exact h2
          · rw [if_neg hcur] at hc
            exact h1 c hc
    · unfold paragraphStep
      by_cases he : pyStrip p = ""
      · rw [if_pos he]; exact h2
      · rw [if_neg he]
        by_cases hfits : st.current_chunk.length + (pyStrip p).length + 1 ≤ dp.chunk_size
        · rw [if_pos hfits]
          by_cases hcur : st.current_chunk ≠ ""
          · rw [if_pos hcur]
            show (st.current_chunk ++ "\n\n" ++ pyStrip p).length ≤ dp.chunk_size + 1
            rw [String.length_append, String.length_append]
            have hsep : ("\n\n" : String).length = 2 := rfl
            omega
          · rw [if_neg hcur]
            show (pyStrip p).length ≤ dp.chunk_size + 1
            omega
        · rw [if_neg hfits]
          rw [if_neg (by omega : ¬ dp.chunk_size < (pyStrip p).length)]
          show (pyStrip p).length ≤ dp.chunk_size + 1
          omega

/-- C10: when every blank-line-separated paragraph fits the configured
chunk_size, every paragraph-mode chunk is at most chunk_size + 1
characters long (the greedy test reserves one character for the
separator while the joiner is two characters wide), and the bound
chunk_size + 1 is attained on a concrete input. -/
theorem c10_paragraph_bound (tc : String → Nat) (dp : DocumentProcessor)
    (text filename : String)
    (hsmall : ∀ p ∈ paraSplit text, (pyStrip p).length ≤ dp.chunk_size) :
    (∀ c ∈ split_text tc dp text filename false, c.content.length ≤ dp.chunk_size + 1) ∧
    (∃ c ∈ split_text count_tokens_fallback ⟨5, 0⟩ "ab\n\ncd" "f.txt" false,
        c.content.length = 5 + 1) := by
  constructor
  · intro c hc
    unfold split_text at hc
    simp only [Bool.false_eq_true, if_false] at hc
    by_cases hempty : pyStrip text = ""
    · rw [if_pos hempty] at hc
      exact absurd hc (List.not_mem_nil c)
    · rw [if_neg hempty] at hc
      have hb := paraState_bound tc dp filename (paraSplit text) ⟨[], ""⟩ hsmall
        (by intro c hc2; exact absurd hc2 (List.not_mem_nil c)) (by simp)
      by_cases hcur :
          ((paraSplit text).foldl (paragraphStep tc dp filename) ⟨[], ""⟩).current_chunk ≠ ""
      · rw [if_pos hcur] at hc
        rcases List.mem_append.mp hc with hcm | hcm
        · exact hb.1 c hcm
        · rcases List.mem_singleton.mp hcm with rfl
          exact hb.2
      · rw [if_neg hcur] at hc
        exact hb.1 c hc
  · decide

/-- Witness for C10 at a concrete input whose two paragraphs of length 2
pack into one chunk of length chunk_size + 1 = 6. -/
theorem c10_paragraph_bound_witness :
    (∀ c ∈ split_text count_tokens_fallback ⟨5, 0⟩ "ab\n\ncd" "f.txt" false,
        c.content.length ≤ 5 + 1) ∧
    (∃ c ∈ split_text count_tokens_fallback ⟨5, 0⟩ "ab\n\ncd" "f.txt" false,
        c.content.length = 5 + 1) :=
  c10_paragraph_bound count_tokens_fallback ⟨5, 0⟩ "ab\n\ncd" "f.txt" (by decide)

/-! ## C9: heading duplication by text_to_markdown -/

theorem containsTwice_length (needle hay : List Char) (h : containsTwice needle hay) :
    2 * needle.length ≤ hay.length := by
  rcases h with ⟨l1, l2, l3, rfl⟩
  simp [List.length_append]
  omega

/-- C9 as stated is refuted: the input document contains the level-2
heading line "## aa bb cc dd", structure-aware mode is selected, yet no
produced chunk contains the heading text twice, because the token-budget
split (chunk_size 2 under the fallback tokenizer) separates the heading
line from its duplicated plain line. -/
theorem c9_counterexample :
    matchHeader (pyStrip "## aa bb cc dd").data = some (2, "aa bb cc dd".data) ∧
    ∀ c ∈ split_text count_tokens_fallback ⟨2, 0⟩ "## aa bb cc dd\nx" "f.txt" true,
      ¬ containsTwice "aa bb cc dd".data c.content.data := by
  refine ⟨by decide, ?_⟩
  intro c hc ht
  have hlen := containsTwice_length _ _ ht
  have hbound : ∀ c ∈ split_text count_tokens_fallback ⟨2, 0⟩ "## aa bb cc dd\nx" "f.txt" true,
      c.content.data.length ≤ 14 := by decide
  have h14 := hbound c hc
  have h11 : ("aa bb cc dd".data).length = 11 := by decide
  omega

theorem take_eq_marker_isPre (l m : List Char) (h : l.take m.length = m) : m <+: l :=
  ⟨l.drop m.length, by nth_rewrite 1 [← h]; exact List.take_append_drop _ _⟩

theorem headerMarker_length (k : Nat) : (headerMarker k).length = k + 1 := by
  simp [headerMarker]

theorem expandLine_hit (k : Nat) (line : List Char) (h1 : line.take (k + 1) = headerMarker k)
    (h2 : line.drop (k + 1) ≠ []) : expandLine k line = [line, line.drop (k + 1)] := by
  unfold expandLine
  rw [if_pos ⟨h1, h2⟩]

theorem expandLine_skip (k : Nat) (line : List Char) (h : ¬ (headerMarker k <+: line)) :
    expandLine k line = [line] := by
  unfold expandLine
  rw [if_neg]
  intro hcond
  exact h (take_eq_marker_isPre line (headerMarker k)
    (by rw [headerMarker_length]; exact hcond.1))

theorem expandLine_no_nl (k : Nat) (l : List Char) (h : '\n' ∉ l) :
    ∀ m ∈ expandLine k l, '\n' ∉ m := by
  intro m hm
  unfold expandLine at hm
  by_cases hc : l.take (k + 1) = headerMarker k ∧ l.drop (k + 1) ≠ []
  · rw [if_pos hc] at hm
    rcases List.mem_cons.mp hm with rfl | hm
    · exact h
    · rcases List.mem_singleton.mp hm with rfl
      exact fun hx => h ((List.drop_sublist _ _).subset hx)
  · rw [if_neg hc] at hm
    rcases List.mem_singleton.mp hm with rfl
    exact h

theorem expandLine_ne_nil (k : Nat) (l : List Char) : expandLine k l ≠ [] := by
  unfold expandLine
  by_cases hc : l.take (k + 1) = headerMarker k ∧ l.drop (k + 1) ≠ []
  · rw [if_pos hc]; simp
  · rw [if_neg hc]; simp

theorem splitNl_joinSep (lines : List (List Char)) (h : ∀ l ∈ lines, '\n' ∉ l)
    (hne : lines ≠ []) : splitNl (joinSep ['\n'] lines) = lines := by
  induction lines with
  | nil => exact absurd rfl hne
  | cons x xs ih =>
    match xs with
    | [] =>
      show splitNl x = [x]
      exact splitNl_no_nl x (h x (List.mem_cons_self _ _))
    | y :: ys =>
      have hstep : joinSep ['\n'] (x :: y :: ys) = x ++ '\n' :: joinSep ['\n'] (y :: ys) := by
        show x ++ ['\n'] ++ joinSep ['\n'] (y :: ys) = _
        rw [List.append_assoc]
        rfl
      rw [hstep, splitNl_append_nl _ _ (h x (List.mem_cons_self _ _)),
        ih (fun l hl => h l (List.mem_cons_of_mem _ hl)) (by simp)]

/-- The line-level effect of one `subHeaderPass`. -/
def mdPassLines (k : Nat) (lines : List (List Char)) : List (List Char) :=
  (lines.map (expandLine k)).flatten

theorem mdPassLines_no_nl (k : Nat) (lines : List (List Char))
    (h : ∀ l ∈ lines, '\n' ∉ l) : ∀ m ∈ mdPassLines k lines, '\n' ∉ m := by
  intro m hm
  rcases List.mem_flatten.mp hm with ⟨grp, hgrp, hmem⟩
  rcases List.mem_map.mp hgrp with ⟨l, hl, rfl⟩
  exact expandLine_no_nl k l (h l hl) m hmem

theorem mdPassLines_ne_nil (k : Nat) (lines : List (List Char)) (hne : lines ≠ []) :
    mdPassLines k lines ≠ [] := by
  match lines with
  | [] => exact absurd rfl hne
  | x :: xs =>
    unfold mdPassLines
    simp only [List.map_cons, List.flatten_cons]
    intro hcontra
    rcases List.append_eq_nil.mp hcontra with ⟨h1, _⟩
    exact expandLine_ne_nil k x h1

theorem subHeaderPass_lines (k : Nat) (lines : List (List Char))
    (hnl : ∀ l ∈ lines, '\n' ∉ l) (hne : lines ≠ []) :
    (subHeaderPass k (String.mk (joinSep ['\n'] lines))).data =
      joinSep ['\n'] (mdPassLines k lines) := by
  show joinSep ['\n'] (((splitNl (joinSep ['\n'] lines)).map (expandLine k)).flatten) = _
  rw [splitNl_joinSep lines hnl hne]
  rfl

theorem trimL_eq_self_of_ends (l : List Char)
    (hh : ∀ c, l.head? = some c → wsChar c = false)
    (hl : ∀ c, l.getLast? = some c → wsChar c = false) : trimL l = l := by
  unfold trimL
  have h1 : l.dropWhile wsChar = l := by
    cases l with
    | nil => rfl
    | cons c t => exact List.dropWhile_cons_of_neg (by simp [hh c rfl])
  rw [h1]
  have h2 : l.reverse.dropWhile wsChar = l.reverse := by
    cases hr : l.reverse with
    | nil => rfl
    | cons c t =>
      have hc : l.getLast? = some c := by
        rw [← List.head?_reverse, hr]
        rfl
      exact List.dropWhile_cons_of_neg (by simp [hl c hc])
  rw [h2, List.reverse_reverse]

theorem dropWhile_of_trimL_eq_self (l : List Char) (htrim : trimL l = l) :
    l.dropWhile wsChar = l ∧ l.reverse.dropWhile wsChar = l.reverse := by
  have hd : l.dropWhile wsChar = l := by
    have hle1 : (trimL l).length ≤ (l.dropWhile wsChar).length := by
      unfold trimL
      rw [List.length_reverse]
      calc ((l.dropWhile wsChar).reverse.dropWhile wsChar).length
          ≤ (l.dropWhile wsChar).reverse.length := (List.dropWhile_sublist _).length_le
        _ = (l.dropWhile wsChar).length := List.length_reverse _
    rw [htrim] at hle1
    exact (List.dropWhile_sublist _).eq_of_length
      (le_antisymm ((List.dropWhile_sublist _).length_le) hle1)
  refine ⟨hd, ?_⟩
  have h2 : ((l.reverse.dropWhile wsChar).reverse : List Char) = l := by
    have := htrim
    unfold trimL at this
    rwa [hd] at this
  calc l.reverse.dropWhile wsChar
      = ((l.reverse.dropWhile wsChar).reverse).reverse := (List.reverse_reverse _).symm
    _ = l.reverse := by rw [h2]

theorem ends_not_ws_of_trimL_eq_self (l : List Char) (htrim : trimL l = l) :
    (∀ c, l.head? = some c → wsChar c = false) ∧
    (∀ c, l.getLast? = some c → wsChar c = false) := by
  rcases dropWhile_of_trimL_eq_self l htrim with ⟨hd, hr⟩
  constructor
  · intro c hc
    cases l with
    | nil => simp at hc
    | cons a t =>
      rcases Option.some.inj hc with rfl
      by_contra hws
      simp only [Bool.not_eq_false] at hws
      rw [List.dropWhile_cons_of_pos hws] at hd
      have := congrArg List.length hd
      have hlen := (List.dropWhile_sublist (p := wsChar) (l := t)).length_le
      simp at this
      omega
  · intro c hc
    rw [← List.head?_reverse] at hc
    cases hrev : l.reverse with
    | nil => rw [hrev] at hc; simp at hc
    | cons a t =>
      rw [hrev] at hc hr
      rcases Option.some.inj hc with rfl
      by_contra hws
      simp only [Bool.not_eq_false] at hws
      rw [List.dropWhile_cons_of_pos hws] at hr
      have := congrArg List.length hr
      have hlen := (List.dropWhile_sublist (p := wsChar) (l := t)).length_le
      simp at this
      omega

theorem pyStrip_mk_ne_empty (l : List Char) (c : Char) (hc : c ∈ l) (hws : wsChar c = false) :
    pyStrip (String.mk l) ≠ "" := by
  intro he
  have hdata : trimL l = [] := congrArg String.data he
  have := trimL_nil_all_ws l hdata c hc
  rw [hws] at this
  exact Bool.false_ne_true this

theorem text_to_markdown_data (line : List Char) (hnl : '\n' ∉ line)
    (hstrip : pyStrip (String.mk line) ≠ "") :
    (text_to_markdown (String.mk line)).data =
      joinSep ['\n'] (mdPassLines 4 (mdPassLines 3 (mdPassLines 2 [line]))) := by
  have hnl1 : ∀ l ∈ [line], '\n' ∉ l := by
    intro l hl
    rcases List.mem_singleton.mp hl with rfl
    exact hnl
  have h2 := subHeaderPass_lines 2 [line] hnl1 (by simp)
  have hjoin : joinSep ['\n'] [line] = line := rfl
  rw [hjoin] at h2
  have e2 : subHeaderPass 2 (String.mk line)
      = String.mk (joinSep ['\n'] (mdPassLines 2 [line])) := String.ext h2
  have hnl2 : ∀ l ∈ mdPassLines 2 [line], '\n' ∉ l := mdPassLines_no_nl 2 [line] hnl1
  have hne2 : mdPassLines 2 [line] ≠ [] := mdPassLines_ne_nil 2 [line] (by simp)
  have h3 := subHeaderPass_lines 3 (mdPassLines 2 [line]) hnl2 hne2
  have e3 : subHeaderPass 3 (String.mk (joinSep ['\n'] (mdPassLines 2 [line])))
      = String.mk (joinSep ['\n'] (mdPassLines 3 (mdPassLines 2 [line]))) := String.ext h3
  have hnl3 := mdPassLines_no_nl 3 _ hnl2
  have hne3 := mdPassLines_ne_nil 3 _ hne2
  have h4 := subHeaderPass_lines 4 (mdPassLines 3 (mdPassLines 2 [line])) hnl3 hne3
  show (if pyStrip (String.mk line) = "" then String.mk line
        else subHeaderPass 4 (subHeaderPass 3 (subHeaderPass 2 (String.mk line)))).data = _
  rw [if_neg hstrip, e2, e3, h4]

theorem tmd_h1 (h : String) (hnl : '\n' ∉ h.data) :
    text_to_markdown ("# " ++ h) = "# " ++ h := by
  have hnl' : '\n' ∉ ('#' :: ' ' :: h.data) := by
    intro hmem
    rcases List.mem_cons.mp hmem with hx | hmem
    · exact absurd hx (by decide)
    rcases List.mem_cons.mp hmem with hx | hmem
    · exact absurd hx (by decide)
    exact hnl hmem
  have hstrip : pyStrip (String.mk ('#' :: ' ' :: h.data)) ≠ "" :=
    pyStrip_mk_ne_empty _ '#' (by simp) (by decide)
  have heta : ("# " ++ h) = String.mk ('#' :: ' ' :: h.data) := String.ext rfl
  apply String.ext
  rw [heta, text_to_markdown_data _ hnl' hstrip]
  have hskip2 : expandLine 2 ('#' :: ' ' :: h.data) = ['#' :: ' ' :: h.data] := by
    apply expandLine_skip
    rintro ⟨t, ht⟩
    simp [headerMarker, List.replicate] at ht
  have hskip3 : expandLine 3 ('#' :: ' ' :: h.data) = ['#' :: ' ' :: h.data] := by
    apply expandLine_skip
    rintro ⟨t, ht⟩
    simp [headerMarker, List.replicate] at ht
  have hskip4 : expandLine 4 ('#' :: ' ' :: h.data) = ['#' :: ' ' :: h.data] := by
    apply expandLine_skip
    rintro ⟨t, ht⟩
    simp [headerMarker, List.replicate] at ht
  simp only [mdPassLines, List.map_cons, List.map_nil, List.flatten_cons, List.flatten_nil,
    List.append_nil, hskip2, hskip3, hskip4]
  rfl

theorem tmd_h2 (h : String) (hne : h.data ≠ []) (hnl : '\n' ∉ h.data)
    (hm3 : ¬ (headerMarker 3 <+: h.data)) (hm4 : ¬ (headerMarker 4 <+: h.data)) :
    text_to_markdown ("## " ++ h) = "## " ++ h ++ "\n" ++ h := by
  have hnl' : '\n' ∉ ('#' :: '#' :: ' ' :: h.data) := by
    intro hmem
    rcases List.mem_cons.mp hmem with hx | hmem
    · exact absurd hx (by decide)
    rcases List.mem_cons.mp hmem with hx | hmem
    · exact absurd hx (by decide)
    rcases List.mem_cons.mp hmem with hx | hmem
    · exact absurd hx (by decide)
    exact hnl hmem
  have hstrip : pyStrip (String.mk ('#' :: '#' :: ' ' :: h.data)) ≠ "" :=
    pyStrip_mk_ne_empty _ '#' (by simp) (by decide)
  have heta : ("## " ++ h) = String.mk ('#' :: '#' :: ' ' :: h.data) := String.ext rfl
  apply String.ext
  rw [heta, text_to_markdown_data _ hnl' hstrip]
  have hhit2 : expandLine 2 ('#' :: '#' :: ' ' :: h.data)
      = ['#' :: '#' :: ' ' :: h.data, h.data] := expandLine_hit 2 _ rfl hne
  have hskip3l : expandLine 3 ('#' :: '#' :: ' ' :: h.data) = ['#' :: '#' :: ' ' :: h.data] := by
    apply expandLine_skip
    rintro ⟨t, ht⟩
    simp [headerMarker, List.replicate] at ht
  have hskip4l : expandLine 4 ('#' :: '#' :: ' ' :: h.data) = ['#' :: '#' :: ' ' :: h.data] := by
    apply expandLine_skip
    rintro ⟨t, ht⟩
    simp [headerMarker, List.replicate] at ht
  have hskip3h : expandLine 3 h.data = [h.data] := expandLine_skip 3 _ hm3
  have hskip4h : expandLine 4 h.data = [h.data] := expandLine_skip 4 _ hm4
  simp only [mdPassLines, List.map_cons, List.map_nil, List.map_append, List.flatten_cons,
    List.flatten_nil, List.flatten_append, List.append_nil, List.nil_append,
    List.singleton_append, List.cons_append, hhit2, hskip3l, hskip4l, hskip3h, hskip4h]
  simp [joinSep, String.data_append]

theorem tmd_h3 (h : String) (hne : h.data ≠ []) (hnl : '\n' ∉ h.data)
    (hm4 : ¬ (headerMarker 4 <+: h.data)) :
    text_to_markdown ("### " ++ h) = "### " ++ h ++ "\n" ++ h := by
  have hnl' : '\n' ∉ ('#' :: '#' :: '#' :: ' ' :: h.data) := by
    intro hmem
    rcases List.mem_cons.mp hmem with hx | hmem
    · exact absurd hx (by decide)
    rcases List.mem_cons.mp hmem with hx | hmem
    · exact absurd hx (by decide)
    rcases List.mem_cons.mp hmem with hx | hmem
    · exact absurd hx (by decide)
    rcases List.mem_cons.mp hmem with hx | hmem
    · exact absurd hx (by decide)
    exact hnl hmem
  have hstrip : pyStrip (String.mk ('#' :: '#' :: '#' :: ' ' :: h.data)) ≠ "" :=
    pyStrip_mk_ne_empty _ '#' (by simp) (by decide)
  have heta : ("### " ++ h) = String.mk ('#' :: '#' :: '#' :: ' ' :: h.data) := String.ext rfl
  apply String.ext
  rw [heta, text_to_markdown_data _ hnl' hstrip]
  have hskip2l : expandLine 2 ('#' :: '#' :: '#' :: ' ' :: h.data)
      = ['#' :: '#' :: '#' :: ' ' :: h.data] := by
    apply expandLine_skip
    rintro ⟨t, ht⟩
    simp [headerMarker, List.replicate] at ht
  have hhit3 : expandLine 3 ('#' :: '#' :: '#' :: ' ' :: h.data)
      = ['#' :: '#' :: '#' :: ' ' :: h.data, h.data] := expandLine_hit 3 _ rfl hne
  have hskip4l : expandLine 4 ('#' :: '#' :: '#' :: ' ' :: h.data)
      = ['#' :: '#' :: '#' :: ' ' :: h.data] := by
    apply expandLine_skip
    rintro ⟨t, ht⟩
    simp [headerMarker, List.replicate] at ht
  have hskip4h : expandLine 4 h.data = [h.data] := expandLine_skip 4 _ hm4
  simp only [mdPassLines, List.map_cons, List.map_nil, List.map_append, List.flatten_cons,
    List.flatten_nil, List.flatten_append, List.append_nil, List.nil_append,
    List.singleton_append, List.cons_append, hskip2l, hhit3, hskip4l, hskip4h]
  simp [joinSep, String.data_append]

theorem tmd_h4 (h : String) (hne : h.data ≠ []) (hnl : '\n' ∉ h.data) :
    text_to_markdown ("#### " ++ h) = "#### " ++ h ++ "\n" ++ h := by
  have hnl' : '\n' ∉ ('#' :: '#' :: '#' :: '#' :: ' ' :: h.data) := by
    intro hmem
    rcases List.mem_cons.mp hmem with hx | hmem
    · exact absurd hx (by decide)
    rcases List.mem_cons.mp hmem with hx | hmem
    · exact absurd hx (by decide)
    rcases List.mem_cons.mp hmem with hx | hmem
    · exact absurd hx (by decide)
    rcases List.mem_cons.mp hmem with hx | hmem
    · exact absurd hx (by decide)
    rcases List.mem_cons.mp hmem with hx | hmem
    · exact absurd hx (by decide)
    exact hnl hmem
  have hstrip : pyStrip (String.mk ('#' :: '#' :: '#' :: '#' :: ' ' :: h.data)) ≠ "" :=
    pyStrip_mk_ne_empty _ '#' (by simp) (by decide)
  have heta : ("#### " ++ h) = String.mk ('#' :: '#' :: '#' :: '#' :: ' ' :: h.data) :=
    String.ext rfl
  apply String.ext
  rw [heta, text_to_markdown_data _ hnl' hstrip]
  have hskip2l : expandLine 2 ('#' :: '#' :: '#' :: '#' :: ' ' :: h.data)
      = ['#' :: '#' :: '#' :: '#' :: ' ' :: h.data] := by
    apply expandLine_skip
    rintro ⟨t, ht⟩
    simp [headerMarker, List.replicate] at ht
  have hskip3l : expandLine 3 ('#' :: '#' :: '#' :: '#' :: ' ' :: h.data)
      = ['#' :: '#' :: '#' :: '#' :: ' ' :: h.data] := by
    apply expandLine_skip
    rintro ⟨t, ht⟩
    simp [headerMarker, List.replicate] at ht
  have hhit4 : expandLine 4 ('#' :: '#' :: '#' :: '#' :: ' ' :: h.data)
      = ['#' :: '#' :: '#' :: '#' :: ' ' :: h.data, h.data] := expandLine_hit 4 _ rfl hne
  simp only [mdPassLines, List.map_cons, List.map_nil, List.map_append, List.flatten_cons,
    List.flatten_nil, List.flatten_append, List.append_nil, List.nil_append,
    List.singleton_append, List.cons_append, hskip2l, hskip3l, hhit4]
  simp [joinSep, String.data_append]

theorem mdFlush_of_empty (tc : String → Nat) (fn : String) (st : MdState)
    (h : st.current_chunk = []) : mdFlush tc fn st = st.chunks := by
  unfold mdFlush
  rw [if_neg (by simp [h])]

theorem mdFlush_of_content (tc : String → Nat) (fn : String) (st : MdState)
    (hne : st.current_chunk ≠ [])
    (hcont : pyStrip (pyJoin "\n" st.current_chunk) ≠ "") :
    mdFlush tc fn st =
      st.chunks ++ [mkMdChunk tc fn st (pyStrip (pyJoin "\n" st.current_chunk))] := by
  simp only [mdFlush]
  rw [if_pos hne, if_pos hcont]

theorem mdStep_header (tc : String → Nat) (dp : DocumentProcessor) (fn : String)
    (st : MdState) (rawLine : String) (hne : pyStrip rawLine ≠ "")
    (lv : Nat × List Char) (hmh : matchHeader (pyStrip rawLine).data = some lv) :
    mdStep tc dp fn st rawLine =
      { chunks := mdFlush tc fn st, current_chunk := [pyStrip rawLine],
        current_header := String.mk (trimL lv.2),
        document_title := if lv.1 = 1 then String.mk (trimL lv.2) else st.document_title,
        header_stack :=
          if lv.1 = 1 then [String.mk (trimL lv.2)]
          else st.header_stack.take (lv.1 - 1) ++ [String.mk (trimL lv.2)] } := by
  simp only [mdStep]
  rw [if_neg hne, hmh]

theorem mdStep_body_fits (tc : String → Nat) (dp : DocumentProcessor) (fn : String)
    (st : MdState) (rawLine : String) (hne : pyStrip rawLine ≠ "")
    (hmh : matchHeader (pyStrip rawLine).data = none)
    (hfit : ¬ (dp.chunk_size < tc (pyJoin "\n" (st.current_chunk ++ [pyStrip rawLine])))) :
    mdStep tc dp fn st rawLine =
      { st with current_chunk := st.current_chunk ++ [pyStrip rawLine] } := by
  simp only [mdStep]
  rw [if_neg hne, hmh]
  simp only []
  rw [if_neg hfit]

theorem md_single_heading (h : String) (hne : h.data ≠ []) (hnl : '\n' ∉ h.data)
    (hm1 : ¬ (headerMarker 1 <+: h.data)) (hm2 : ¬ (headerMarker 2 <+: h.data))
    (hm3 : ¬ (headerMarker 3 <+: h.data)) (hm4 : ¬ (headerMarker 4 <+: h.data))
    (htrim : trimL h.data = h.data)
    (tc : String → Nat) (dp : DocumentProcessor) (filename : String)
    (hbudget : tc ("## " ++ h ++ "\n" ++ h) ≤ dp.chunk_size) :
    split_text tc dp ("## " ++ h) filename true =
      [{ content := "## " ++ h ++ "\n" ++ h,
         metadata := { source := filename, header := some h,
                       header_path := some (pyJoin " -> " ["Документ", h]),
                       document_title := filename },
         tokens := tc ("## " ++ h ++ "\n" ++ h) }] := by
  have hlast_h := (ends_not_ws_of_trimL_eq_self h.data htrim).2
  have hnl2 : '\n' ∉ ('#' :: '#' :: ' ' :: h.data) := by
    intro hmem
    rcases List.mem_cons.mp hmem with hx | hmem
    · exact absurd hx (by decide)
    rcases List.mem_cons.mp hmem with hx | hmem
    · exact absurd hx (by decide)
    rcases List.mem_cons.mp hmem with hx | hmem
    · exact absurd hx (by decide)
    exact hnl hmem
  have hlast_l2 : ∀ c, ('#' :: '#' :: ' ' :: h.data).getLast? = some c → wsChar c = false := by
    intro c hc
    rw [show ('#' :: '#' :: ' ' :: h.data) = ['#', '#', ' '] ++ h.data from rfl,
      List.getLast?_append] at hc
    cases hgl : h.data.getLast? with
    | none => exact absurd (List.getLast?_eq_none_iff.mp hgl) hne
    | some d =>
      rw [hgl, Option.or_some] at hc
      rcases Option.some.inj hc with rfl
      exact hlast_h _ hgl
  have htrim_l2 : trimL ('#' :: '#' :: ' ' :: h.data) = '#' :: '#' :: ' ' :: h.data := by
    apply trimL_eq_self_of_ends
    · intro c hc
      have h1 : '#' = c := Option.some.inj hc
      rw [← h1]
      decide
    · exact hlast_l2
  have hstrip2 : pyStrip ("## " ++ h) ≠ "" :=
    pyStrip_mk_ne_empty ('#' :: '#' :: ' ' :: h.data) '#' (by simp) (by decide)
  have htm := tmd_h2 h hne hnl hm3 hm4
  have hdata2 : ("## " ++ h ++ "\n" ++ h).data
      = ('#' :: '#' :: ' ' :: h.data) ++ '\n' :: h.data := by
    simp [String.data_append]
  have hstep0 : split_text tc dp ("## " ++ h) filename true =
      mdFlush tc filename
        (((splitNl (text_to_markdown ("## " ++ h)).data).map String.mk).foldl
          (mdStep tc dp filename) (mdInit filename)) := by
    show split_text_by_markdown_headers tc dp ("## " ++ h) filename true = _
    simp only [split_text_by_markdown_headers]
    rw [if_neg hstrip2]
    simp
  rw [hstep0, htm, hdata2, splitNl_append_nl _ _ hnl2, splitNl_no_nl _ hnl]
  simp only [List.map_cons, List.map_nil, List.foldl_cons, List.foldl_nil]
  have hpystrip_l2 : pyStrip (String.mk ('#' :: '#' :: ' ' :: h.data))
      = String.mk ('#' :: '#' :: ' ' :: h.data) := congrArg String.mk htrim_l2
  have hne_l2 : pyStrip (String.mk ('#' :: '#' :: ' ' :: h.data)) ≠ "" := hstrip2
  have hmh_l2 : matchHeader (pyStrip (String.mk ('#' :: '#' :: ' ' :: h.data))).data
      = some (2, h.data) := by
    rw [hpystrip_l2]
    show matchHeader ('#' :: '#' :: ' ' :: h.data) = some (2, h.data)
    unfold matchHeader
    rw [if_neg (by simp [headerMarker, List.replicate]), if_pos ⟨rfl, hne⟩]
    rfl
  rw [mdStep_header tc dp filename (mdInit filename) _ hne_l2 (2, h.data) hmh_l2]
  rw [mdFlush_of_empty tc filename (mdInit filename) rfl, hpystrip_l2]
  simp only [htrim, if_neg (by decide : ¬ (2 = 1))]
  have hmk_h : String.mk h.data = h := rfl
  rw [hmk_h]
  have hpystrip_h : pyStrip h = h := by
    show String.mk (trimL h.data) = h
    rw [htrim]
  have hne_h : pyStrip h ≠ "" := by
    rw [hpystrip_h]
    intro he
    exact hne (congrArg String.data he)
  have hmh_h : matchHeader (pyStrip h).data = none := by
    rw [hpystrip_h]
    unfold matchHeader
    rw [if_neg (fun hc => hm1 (take_eq_marker_isPre _ _
          (by rw [headerMarker_length]; exact hc.1))),
        if_neg (fun hc => hm2 (take_eq_marker_isPre _ _
          (by rw [headerMarker_length]; exact hc.1))),
        if_neg (fun hc => hm3 (take_eq_marker_isPre _ _
          (by rw [headerMarker_length]; exact hc.1))),
        if_neg (fun hc => hm4 (take_eq_marker_isPre _ _
          (by rw [headerMarker_length]; exact hc.1)))]
  have hjoin2 : pyJoin "\n" [String.mk ('#' :: '#' :: ' ' :: h.data), h]
      = "## " ++ h ++ "\n" ++ h := by
    apply String.ext
    simp [pyJoin, joinSep, String.data_append]
  have hfit : ¬ (dp.chunk_size <
      tc (pyJoin "\n" ([String.mk ('#' :: '#' :: ' ' :: h.data)] ++ [pyStrip h]))) := by
    rw [hpystrip_h]
    rw [show ([String.mk ('#' :: '#' :: ' ' :: h.data)] ++ [h])
        = [String.mk ('#' :: '#' :: ' ' :: h.data), h] from rfl, hjoin2]
    omega
  rw [mdStep_body_fits tc dp filename _ h hne_h hmh_h hfit]
  rw [hpystrip_h]
  have hcur_ne : ([String.mk ('#' :: '#' :: ' ' :: h.data)] ++ [h]) ≠ [] := by simp
  have hfull_trim : pyStrip ("## " ++ h ++ "\n" ++ h) = "## " ++ h ++ "\n" ++ h := by
    show String.mk (trimL ("## " ++ h ++ "\n" ++ h).data) = _
    rw [hdata2]
    have htr : trimL (('#' :: '#' :: ' ' :: h.data) ++ '\n' :: h.data)
        = ('#' :: '#' :: ' ' :: h.data) ++ '\n' :: h.data := by
      apply trimL_eq_self_of_ends
      · intro c hc
        have h1 : '#' = c := Option.some.inj hc
        rw [← h1]
        decide
      · intro c hc
        rw [show (('#' :: '#' :: ' ' :: h.data) ++ '\n' :: h.data)
            = (('#' :: '#' :: ' ' :: h.data) ++ ['\n']) ++ h.data from by simp,
          List.getLast?_append] at hc
        cases hgl : h.data.getLast? with
        | none => exact absurd (List.getLast?_eq_none_iff.mp hgl) hne
        | some d =>
          rw [hgl, Option.or_some] at hc
          rcases Option.some.inj hc with rfl
          exact hlast_h _ hgl
    rw [htr, ← hdata2]
  have hjoin3 : pyJoin "\n" ([String.mk ('#' :: '#' :: ' ' :: h.data)] ++ [h])
      = "## " ++ h ++ "\n" ++ h := by
    rw [show ([String.mk ('#' :: '#' :: ' ' :: h.data)] ++ [h])
        = [String.mk ('#' :: '#' :: ' ' :: h.data), h] from rfl]
    exact hjoin2
  have hcont_ne : pyStrip (pyJoin "\n" ([String.mk ('#' :: '#' :: ' ' :: h.data)] ++ [h])) ≠ "" := by
    rw [hjoin3, hfull_trim]
    intro he
    have := congrArg String.data he
    rw [hdata2] at this
    exact List.cons_ne_nil _ _ this
  rw [mdFlush_of_content tc filename _ hcur_ne hcont_ne]
  rw [hjoin3, hfull_trim]
  rfl

/-- C9 (amended): text_to_markdown duplicates every level-2, level-3 and
level-4 heading line into an immediately following plain line with the
heading text, and does not duplicate level-1 headings (stated for heading
texts that are newline-free and do not themselves start with a heading
marker, so no substitution pass cascades); consequently, for a document
consisting of such a level-2 heading whose heading-plus-duplicate stays
within the token budget, the produced chunk contains the heading text
twice and is not a verbatim fragment of the original input. -/
theorem c9_header_duplication (h : String) (hne : h.data ≠ []) (hnl : '\n' ∉ h.data)
    (hm1 : ¬ (headerMarker 1 <+: h.data)) (hm2 : ¬ (headerMarker 2 <+: h.data))
    (hm3 : ¬ (headerMarker 3 <+: h.data)) (hm4 : ¬ (headerMarker 4 <+: h.data)) :
    (text_to_markdown ("# " ++ h) = "# " ++ h ∧
     text_to_markdown ("## " ++ h) = "## " ++ h ++ "\n" ++ h ∧
     text_to_markdown ("### " ++ h) = "### " ++ h ++ "\n" ++ h ∧
     text_to_markdown ("#### " ++ h) = "#### " ++ h ++ "\n" ++ h) ∧
    (trimL h.data = h.data →
      ∀ (tc : String → Nat) (dp : DocumentProcessor) (filename : String),
        tc ("## " ++ h ++ "\n" ++ h) ≤ dp.chunk_size →
        ∃ c, split_text tc dp ("## " ++ h) filename true = [c] ∧
          c.content = "## " ++ h ++ "\n" ++ h ∧
          containsTwice h.data c.content.data ∧
          ¬ (c.content.data <:+: ("## " ++ h).data)) := by
  refine ⟨⟨tmd_h1 h hnl, tmd_h2 h hne hnl hm3 hm4, tmd_h3 h hne hnl hm4,
    tmd_h4 h hne hnl⟩, ?_⟩
  intro htrim tc dp filename hbudget
  refine ⟨_, md_single_heading h hne hnl hm1 hm2 hm3 hm4 htrim tc dp filename hbudget,
    rfl, ?_, ?_⟩
  · refine ⟨['#', '#', ' '], ['\n'], [], ?_⟩
    simp [String.data_append]
  · intro hinf
    have hle : ("## " ++ h ++ "\n" ++ h).data.length ≤ ("## " ++ h).data.length :=
      hinf.length_le
    have h1 : ("## " ++ h ++ "\n" ++ h).data.length = 2 * h.data.length + 4 := by
      simp only [String.data_append]
      simp [List.length_append]
      omega
    have h2 : ("## " ++ h).data.length = h.data.length + 3 := by
      simp only [String.data_append]
      simp [List.length_append]
    have hpos : 0 < h.data.length := List.length_pos.mpr hne
    omega

/-- Witness for C9 at the heading text "Intro" with the default
configuration and the fallback tokenizer. -/
theorem c9_header_duplication_witness :
    (text_to_markdown ("# " ++ "Intro") = "# " ++ "Intro" ∧
     text_to_markdown ("## " ++ "Intro") = "## " ++ "Intro" ++ "\n" ++ "Intro" ∧
     text_to_markdown ("### " ++ "Intro") = "### " ++ "Intro" ++ "\n" ++ "Intro" ∧
     text_to_markdown ("#### " ++ "Intro") = "#### " ++ "Intro" ++ "\n" ++ "Intro") ∧
    (∃ c, split_text count_tokens_fallback ⟨1500, 150⟩ ("## " ++ "Intro") "doc.txt" true
        = [c] ∧
      c.content = "## " ++ "Intro" ++ "\n" ++ "Intro" ∧
      containsTwice "Intro".data c.content.data ∧
      ¬ (c.content.data <:+: ("## " ++ "Intro").data)) := by
  have h := c9_header_duplication "Intro" (by decide) (by decide) (by decide) (by decide)
    (by decide) (by decide)
  exact ⟨h.1, h.2 (by decide) count_tokens_fallback ⟨1500, 150⟩ "doc.txt" (by decide)⟩

/-! ## C7: content preservation of the segmenter -/

theorem pyWordsAux_filter (p : Char → Bool) (hpw : ∀ c, wsChar c = true → p c = false) :
    ∀ (l acc : List Char),
      ((pyWordsAux l acc).map (List.filter p)).flatten = List.filter p (acc.reverse ++ l) := by
  intro l
  induction l with
  | nil =>
    intro acc
    by_cases hacc : acc = []
    · simp [pyWordsAux, hacc]
    · simp [pyWordsAux, hacc]
  | cons c rest ih =>
    intro acc
    by_cases hws : wsChar c = true
    · have hpc : p c = false := hpw c hws
      by_cases hacc : acc = []
      · rw [show pyWordsAux (c :: rest) acc = pyWordsAux rest [] by
            simp [pyWordsAux, hws, hacc]]
        rw [ih []]
        simp [List.filter_append, List.filter_cons, hpc, hacc]
      · rw [show pyWordsAux (c :: rest) acc = acc.reverse :: pyWordsAux rest [] by
            simp [pyWordsAux, hws, hacc]]
        simp only [List.map_cons, List.flatten_cons, ih []]
        simp [List.filter_append, List.filter_cons, hpc]
    · rw [show pyWordsAux (c :: rest) acc = pyWordsAux rest (c :: acc) by
          simp [pyWordsAux, hws]]
      rw [ih (c :: acc)]
      simp [List.filter_append, List.reverse_cons, List.filter_cons]

theorem sentSplitAux_skip (l : List Char) :
    ∀ (s : Nat) (acc : List Char), sentSplitAux l acc s = sentSplitAux (l.drop s) acc 0 := by
  induction l with
  | nil => intro s acc; cases s <;> rfl
  | cons c rest ih =>
    intro s acc
    cases s with
    | zero => rfl
    | succ s => exact ih s acc

theorem lastNlIdx_lt (l : List Char) : ∀ k, lastNlIdx l = some k → k < l.length := by
  induction l with
  | nil => intro k hk; simp [lastNlIdx] at hk
  | cons c cs ih =>
    intro k hk
    unfold lastNlIdx at hk
    cases hl : lastNlIdx cs with
    | some i =>
      rw [hl] at hk
      rcases Option.some.inj hk with rfl
      have := ih i hl
      simp
      omega
    | none =>
      rw [hl] at hk
      by_cases hc : c = '\n'
      · rw [if_pos hc] at hk
        rcases Option.some.inj hk with rfl
        simp
      · rw [if_neg hc] at hk
        exact absurd hk (by simp)

theorem paraSplitAux_skip (l : List Char) :
    ∀ (s : Nat) (acc : List Char), paraSplitAux l acc s = paraSplitAux (l.drop s) acc 0 := by
  induction l with
  | nil => intro s acc; cases s <;> rfl
  | cons c rest ih =>
    intro s acc
    cases s with
    | zero => rfl
    | succ s => exact ih s acc

theorem take_of_takeWhile_all (q : Char → Bool) (l : List Char) (n : Nat)
    (hn : n ≤ (l.takeWhile q).length) : ∀ c ∈ l.take n, q c = true := by
  intro c hc
  have h1 : l.takeWhile q = l.take (l.takeWhile q).length :=
    List.prefix_iff_eq_take.mp (List.takeWhile_prefix q)
  have h2 : l.take n = (l.takeWhile q).take n := by
    rw [h1, List.take_take, Nat.min_eq_left hn]
  rw [h2] at hc
  exact List.mem_takeWhile_imp ((List.take_sublist _ _).subset hc)

theorem sentSplitAux_filter (p : Char → Bool) (hpw : ∀ c, wsChar c = true → p c = false)
    (hpp : ∀ c, sentencePunct c = true → p c = false) :
    ∀ (n : Nat) (l acc : List Char), l.length ≤ n →
      ((sentSplitAux l acc 0).map (List.filter p)).flatten
        = List.filter p (acc.reverse ++ l) := by
  intro n
  induction n with
  | zero =>
    intro l acc hl
    have h0 : l = [] := List.length_eq_zero.mp (Nat.le_zero.mp hl)
    subst h0
    simp [sentSplitAux, List.filter_append]
  | succ n ih =>
    intro l acc hl
    match l with
    | [] => simp [sentSplitAux, List.filter_append]
    | c :: rest =>
      simp only [List.length_cons] at hl
      by_cases hsp : sentencePunct c = true
      · have hstep : sentSplitAux (c :: rest) acc 0
            = acc.reverse :: sentSplitAux rest [] (rest.takeWhile sentencePunct).length := by
          simp [sentSplitAux, hsp]
        rw [hstep, sentSplitAux_skip]
        simp only [List.map_cons, List.flatten_cons]
        rw [ih (rest.drop (rest.takeWhile sentencePunct).length) [] (by
          have hd := (List.drop_sublist (rest.takeWhile sentencePunct).length rest).length_le
          omega)]
        have hdecomp : List.filter p (c :: rest)
            = List.filter p (rest.drop (rest.takeWhile sentencePunct).length) := by
          rw [List.filter_cons_of_neg (by simp [hpp c hsp])]
          conv_lhs => rw [← List.take_append_drop (rest.takeWhile sentencePunct).length rest]
          rw [List.filter_append]
          have hall : ∀ x ∈ rest.take (rest.takeWhile sentencePunct).length,
              sentencePunct x = true := take_of_takeWhile_all sentencePunct rest _ le_rfl
          rw [List.filter_eq_nil_iff.mpr (fun x hx => by simp [hpp x (hall x hx)])]
          rfl
        conv_rhs => rw [List.filter_append, hdecomp]
        simp
      · have hstep : sentSplitAux (c :: rest) acc 0 = sentSplitAux rest (c :: acc) 0 := by
          simp [sentSplitAux, hsp]
        rw [hstep, ih rest (c :: acc) (by omega)]
        by_cases hpc : p c = true
        · simp [List.filter_append, List.reverse_cons, List.filter_cons, hpc]
        · simp [List.filter_append, List.reverse_cons, List.filter_cons, hpc]

theorem paraSplitAux_filter (p : Char → Bool) (hpw : ∀ c, wsChar c = true → p c = false) :
    ∀ (n : Nat) (l acc : List Char), l.length ≤ n →
      ((paraSplitAux l acc 0).map (List.filter p)).flatten
        = List.filter p (acc.reverse ++ l) := by
  intro n
  induction n with
  | zero =>
    intro l acc hl
    have h0 : l = [] := List.length_eq_zero.mp (Nat.le_zero.mp hl)
    subst h0
    simp [paraSplitAux, List.filter_append]
  | succ n ih =>
    intro l acc hl
    match l with
    | [] => simp [paraSplitAux, List.filter_append]
    | c :: rest =>
      simp only [List.length_cons] at hl
      by_cases hnlc : c = '\n'
      · cases hli : lastNlIdx (rest.takeWhile wsChar) with
        | some k =>
          have hstep : paraSplitAux (c :: rest) acc 0
              = acc.reverse :: paraSplitAux rest [] (k + 1) := by
            simp [paraSplitAux, hnlc, hli]
          rw [hstep, paraSplitAux_skip]
          simp only [List.map_cons, List.flatten_cons]
          rw [ih (rest.drop (k + 1)) [] (by
            have hd := (List.drop_sublist (k + 1) rest).length_le
            omega)]
          have hk : k < (rest.takeWhile wsChar).length := lastNlIdx_lt _ k hli
          have hdecomp : List.filter p (c :: rest)
              = List.filter p (rest.drop (k + 1)) := by
            rw [List.filter_cons_of_neg (by
              have : wsChar c = true := by rw [hnlc]; decide
              simp [hpw c this])]
            conv_lhs => rw [← List.take_append_drop (k + 1) rest]
            rw [List.filter_append]
            have hall : ∀ x ∈ rest.take (k + 1), wsChar x = true :=
              take_of_takeWhile_all wsChar rest (k + 1) (by omega)
            rw [List.filter_eq_nil_iff.mpr (fun x hx => by simp [hpw x (hall x hx)])]
            rfl
          conv_rhs => rw [List.filter_append, hdecomp]
          simp
        | none =>
          have hstep : paraSplitAux (c :: rest) acc 0 = paraSplitAux rest (c :: acc) 0 := by
            simp [paraSplitAux, hnlc, hli]
          rw [hstep, ih rest (c :: acc) (by omega)]
          by_cases hpc : p c = true
          · simp [List.filter_append, List.reverse_cons, List.filter_cons, hpc]
          · simp [List.filter_append, List.reverse_cons, List.filter_cons, hpc]
      · have hstep : paraSplitAux (c :: rest) acc 0 = paraSplitAux rest (c :: acc) 0 := by
          simp [paraSplitAux, hnlc]
        rw [hstep, ih rest (c :: acc) (by omega)]
        by_cases hpc : p c = true
        · simp [List.filter_append, List.reverse_cons, List.filter_cons, hpc]
        · simp [List.filter_append, List.reverse_cons, List.filter_cons, hpc]

theorem chunksChars_append (a b : List Chunk) :
    chunksChars (a ++ b) = chunksChars a ++ chunksChars b := by
  simp [chunksChars]

theorem filter_pyStrip (p : Char → Bool) (hpw : ∀ c, wsChar c = true → p c = false)
    (s : String) : List.filter p (pyStrip s).data = List.filter p s.data := by
  show List.filter p (trimL s.data) = _
  exact filter_trimL p hpw s.data

theorem filter_of_strip_empty (p : Char → Bool) (hpw : ∀ c, wsChar c = true → p c = false)
    (s : String) (h : pyStrip s = "") : List.filter p s.data = [] := by
  have hdata : trimL s.data = [] := congrArg String.data h
  exact filter_eq_nil_of_ws p hpw s.data (trimL_nil_all_ws s.data hdata)

theorem strip_join_filter (p : Char → Bool) (hpw : ∀ c, wsChar c = true → p c = false)
    (ls : List String) :
    List.filter p (pyStrip (pyJoin "\n" ls)).data
      = List.filter p ((ls.map String.data).flatten) := by
  show List.filter p (trimL (joinSep "\n".data (ls.map String.data))) = _
  rw [filter_trimL p hpw]
  rw [filter_joinSep p _ (by
    intro c hc
    rcases List.mem_singleton.mp hc with rfl
    exact hpw '\n' (by decide))]
  rw [List.filter_flatten]

theorem sentenceStep_filter (p : Char → Bool) (hpw : ∀ c, wsChar c = true → p c = false)
    (tc : String → Nat) (dp : DocumentProcessor) (fn : String) (st : ParaState) (s : String) :
    List.filter p (chunksChars (sentenceStep tc dp fn st s).chunks
        ++ (sentenceStep tc dp fn st s).current_chunk.data)
      = List.filter p (chunksChars st.chunks ++ st.current_chunk.data ++ s.data) := by
  have hsp : p ' ' = false := hpw ' ' (by decide)
  simp only [sentenceStep]
  by_cases hse : pyStrip s = ""
  · rw [if_pos hse]
    simp [List.filter_append, filter_of_strip_empty p hpw s hse]
  · rw [if_neg hse]
    by_cases hfits : st.current_chunk.length + (pyStrip s).length + 1 ≤ dp.chunk_size
    · rw [if_pos hfits]
      by_cases hcur : st.current_chunk ≠ ""
      · rw [if_pos hcur]
        simp [List.filter_append, String.data_append, filter_pyStrip p hpw s,
          List.filter_cons, hsp]
      · rw [if_neg hcur]
        simp only [ne_eq, Decidable.not_not] at hcur
        simp [List.filter_append, filter_pyStrip p hpw s, hcur]
    · rw [if_neg hfits]
      by_cases hcur : st.current_chunk ≠ ""
      · rw [if_pos hcur]
        simp [List.filter_append, chunksChars_append, chunksChars, mkParaChunk,
          filter_pyStrip p hpw s]
      · rw [if_neg hcur]
        simp only [ne_eq, Decidable.not_not] at hcur
        simp [List.filter_append, filter_pyStrip p hpw s, hcur]

theorem sentFold_filter (p : Char → Bool) (hpw : ∀ c, wsChar c = true → p c = false)
    (tc : String → Nat) (dp : DocumentProcessor) (fn : String) :
    ∀ (ss : List String) (st : ParaState),
      List.filter p (chunksChars (ss.foldl (sentenceStep tc dp fn) st).chunks
          ++ (ss.foldl (sentenceStep tc dp fn) st).current_chunk.data)
        = List.filter p (chunksChars st.chunks ++ st.current_chunk.data
            ++ (ss.map String.data).flatten) := by
  intro ss
  induction ss with
  | nil => intro st; simp
  | cons s rest ih =>
    intro st
    rw [List.foldl_cons, ih (sentenceStep tc dp fn st s)]
    simp only [List.filter_append] at *
    rw [show List.filter p (chunksChars (sentenceStep tc dp fn st s).chunks)
          ++ List.filter p (sentenceStep tc dp fn st s).current_chunk.data
        = List.filter p (chunksChars st.chunks) ++ (List.filter p st.current_chunk.data
          ++ List.filter p s.data) from by
      have := sentenceStep_filter p hpw tc dp fn st s
      simpa [List.filter_append] using this]
    simp [List.filter_append, List.append_assoc]

theorem map_data_map_mk (xs : List (List Char)) :
    List.map String.data (xs.map String.mk) = xs := by
  induction xs with
  | nil => rfl
  | cons a t iht => simp only [List.map_cons, iht]

theorem paragraphStep_filter (p : Char → Bool) (hpw : ∀ c, wsChar c = true → p c = false)
    (hpp : ∀ c, sentencePunct c = true → p c = false)
    (tc : String → Nat) (dp : DocumentProcessor) (fn : String) (st : ParaState) (s : String) :
    List.filter p (chunksChars (paragraphStep tc dp fn st s).chunks
        ++ (paragraphStep tc dp fn st s).current_chunk.data)
      = List.filter p (chunksChars st.chunks ++ st.current_chunk.data ++ s.data) := by
  simp only [paragraphStep]
  by_cases hse : pyStrip s = ""
  · rw [if_pos hse]
    simp [List.filter_append, filter_of_strip_empty p hpw s hse]
  · rw [if_neg hse]
    by_cases hfits : st.current_chunk.length + (pyStrip s).length + 1 ≤ dp.chunk_size
    · rw [if_pos hfits]
      by_cases hcur : st.current_chunk ≠ ""
      · rw [if_pos hcur]
        have hnn : p '\n' = false := hpw '\n' (by decide)
        simp [List.filter_append, String.data_append, filter_pyStrip p hpw s,
          List.filter_cons, hnn]
      · rw [if_neg hcur]
        simp only [ne_eq, Decidable.not_not] at hcur
        simp [List.filter_append, filter_pyStrip p hpw s, hcur]
    · rw [if_neg hfits]
      by_cases hbig : dp.chunk_size < (pyStrip s).length
      · rw [if_pos hbig]
        rw [sentFold_filter p hpw tc dp fn]
        have hsent : List.filter p ((List.map String.data (sentSplit (pyStrip s))).flatten)
            = List.filter p s.data := by
          show List.filter p
            ((List.map String.data ((sentSplitAux (pyStrip s).data [] 0).map String.mk)).flatten)
            = _
          rw [map_data_map_mk, List.filter_flatten,
            sentSplitAux_filter p hpw hpp (pyStrip s).data.length _ [] le_rfl]
          show List.filter p (trimL s.data) = _
          exact filter_trimL p hpw s.data
        by_cases hcur : st.current_chunk ≠ ""
        · rw [if_pos hcur]
          simp [List.filter_append, chunksChars_append, chunksChars, mkParaChunk, hsent]
        · rw [if_neg hcur]
          simp only [ne_eq, Decidable.not_not] at hcur
          simp [List.filter_append, hsent, hcur]
      · rw [if_neg hbig]
        by_cases hcur : st.current_chunk ≠ ""
        · rw [if_pos hcur]
          simp [List.filter_append, chunksChars_append, chunksChars, mkParaChunk,
            filter_pyStrip p hpw s]
        · rw [if_neg hcur]
          simp only [ne_eq, Decidable.not_not] at hcur
          simp [List.filter_append, filter_pyStrip p hpw s, hcur]

theorem paraFold_filter (p : Char → Bool) (hpw : ∀ c, wsChar c = true → p c = false)
    (hpp : ∀ c, sentencePunct c = true → p c = false)
    (tc : String → Nat) (dp : DocumentProcessor) (fn : String) :
    ∀ (ps : List String) (st : ParaState),
      List.filter p (chunksChars (ps.foldl (paragraphStep tc dp fn) st).chunks
          ++ (ps.foldl (paragraphStep tc dp fn) st).current_chunk.data)
        = List.filter p (chunksChars st.chunks ++ st.current_chunk.data
            ++ (ps.map String.data).flatten) := by
  intro ps
  induction ps with
  | nil => intro st; simp
  | cons s rest ih =>
    intro st
    rw [List.foldl_cons, ih (paragraphStep tc dp fn st s)]
    simp only [List.filter_append] at *
    rw [show List.filter p (chunksChars (paragraphStep tc dp fn st s).chunks)
          ++ List.filter p (paragraphStep tc dp fn st s).current_chunk.data
        = List.filter p (chunksChars st.chunks) ++ (List.filter p st.current_chunk.data
          ++ List.filter p s.data) from by
      have := paragraphStep_filter p hpw hpp tc dp fn st s
      simpa [List.filter_append] using this]
    simp [List.filter_append, List.append_assoc]

theorem strip_join_empty_filter (p : Char → Bool) (hpw : ∀ c, wsChar c = true → p c = false)
    (ls : List String) (h : pyStrip (pyJoin "\n" ls) = "") :
    List.filter p ((ls.map String.data).flatten) = [] := by
  have h1 := strip_join_filter p hpw ls
  rw [h] at h1
  simpa using h1.symm

theorem mdFlush_filter (p : Char → Bool) (hpw : ∀ c, wsChar c = true → p c = false)
    (tc : String → Nat) (fn : String) (st : MdState) :
    List.filter p (chunksChars (mdFlush tc fn st))
      = List.filter p (chunksChars st.chunks ++ (st.current_chunk.map String.data).flatten) := by
  simp only [mdFlush]
  by_cases hc : st.current_chunk ≠ []
  · rw [if_pos hc]
    by_cases hcont : pyStrip (pyJoin "\n" st.current_chunk) ≠ ""
    · rw [if_pos hcont]
      simp [chunksChars_append, chunksChars, List.filter_append, mkMdChunk,
        strip_join_filter p hpw st.current_chunk]
    · rw [if_neg hcont]
      simp only [ne_eq, Decidable.not_not] at hcont
      simp [List.filter_append, strip_join_empty_filter p hpw st.current_chunk hcont]
  · rw [if_neg hc]
    simp only [ne_eq, Decidable.not_not] at hc
    simp [List.filter_append, hc]

theorem pyWords_take_drop_filter (p : Char → Bool)
    (hpw : ∀ c, wsChar c = true → p c = false) (s : String) (half : Nat) :
    List.filter p (pyJoin " " ((pyWords s).take half)).data
      ++ List.filter p (pyJoin " " ((pyWords s).drop half)).data
      = List.filter p s.data := by
  have hsep : ∀ c ∈ (" " : String).data, p c = false := by
    intro c hc
    rcases List.mem_singleton.mp hc with rfl
    exact hpw ' ' (by decide)
  show List.filter p (joinSep (" " : String).data (((pyWords s).take half).map String.data))
      ++ List.filter p (joinSep (" " : String).data (((pyWords s).drop half).map String.data))
      = _
  rw [filter_joinSep p _ hsep, filter_joinSep p _ hsep, ← List.flatten_append,
    ← List.map_append, ← List.map_append, List.take_append_drop]
  show ((List.map String.data ((pyWordsAux s.data []).map String.mk)).map
      (List.filter p)).flatten = _
  rw [map_data_map_mk]
  exact pyWordsAux_filter p hpw s.data []

theorem mdStep_filter (p : Char → Bool) (hpw : ∀ c, wsChar c = true → p c = false)
    (tc : String → Nat) (dp : DocumentProcessor) (fn : String) (st : MdState) (raw : String) :
    List.filter p (chunksChars (mdStep tc dp fn st raw).chunks
        ++ ((mdStep tc dp fn st raw).current_chunk.map String.data).flatten)
      = List.filter p (chunksChars st.chunks
          ++ (st.current_chunk.map String.data).flatten ++ raw.data) := by
  simp only [mdStep]
  by_cases hse : pyStrip raw = ""
  · rw [if_pos hse]
    by_cases hc : st.current_chunk ≠ []
    · rw [if_pos hc]
      simp [List.filter_append, filter_of_strip_empty p hpw raw hse]
    · rw [if_neg hc]
      simp [List.filter_append, filter_of_strip_empty p hpw raw hse]
  · rw [if_neg hse]
    cases hmh : matchHeader (pyStrip raw).data with
    | some lv =>
      simp [List.filter_append, List.append_assoc, mdFlush_filter p hpw tc fn st,
        filter_pyStrip p hpw]
    | none =>
      by_cases hover :
          dp.chunk_size < tc (pyJoin "\n" (st.current_chunk ++ [pyStrip raw]))
      · rw [if_pos hover]
        by_cases hlen : 1 < (st.current_chunk ++ [pyStrip raw]).length
        · rw [if_pos hlen]
          rw [List.dropLast_concat, show (st.current_chunk ++ [pyStrip raw]).getLastD ""
              = pyStrip raw from List.getLastD_concat _ _ _]
          by_cases hcont : pyStrip (pyJoin "\n" st.current_chunk) ≠ ""
          · rw [if_pos hcont]
            simp [chunksChars_append, chunksChars, mkMdChunk, List.filter_append,
              List.append_assoc, strip_join_filter p hpw st.current_chunk,
              filter_pyStrip p hpw]
          · rw [if_neg hcont]
            simp only [ne_eq, Decidable.not_not] at hcont
            simp [List.filter_append, List.append_assoc,
              strip_join_empty_filter p hpw st.current_chunk hcont, filter_pyStrip p hpw]
        · rw [if_neg hlen]
          have hnil : st.current_chunk = [] := by
            rcases hsc : st.current_chunk with _ | ⟨a, l⟩
            · rfl
            · exfalso
              apply hlen
              rw [hsc]
              simp
          have hfs := pyWords_take_drop_filter p hpw (pyStrip raw)
            ((pyWords (pyStrip raw)).length / 2)
          rw [filter_pyStrip p hpw raw] at hfs
          by_cases hcont2 : pyStrip (pyJoin " "
              ((pyWords (pyStrip raw)).take ((pyWords (pyStrip raw)).length / 2))) ≠ ""
          · rw [if_pos hcont2]
            rw [hnil]
            simp only [chunksChars, mkMdChunk, List.map_append, List.map_cons,
              List.map_nil, List.flatten_append, List.flatten_cons, List.flatten_nil,
              List.append_nil, List.filter_append, List.append_assoc, List.nil_append]
            rw [filter_pyStrip p hpw, hfs]
          · rw [if_neg hcont2]
            simp only [ne_eq, Decidable.not_not] at hcont2
            have hf : List.filter p (pyJoin " "
                ((pyWords (pyStrip raw)).take ((pyWords (pyStrip raw)).length / 2))).data
                = [] := filter_of_strip_empty p hpw _ hcont2
            rw [hf, List.nil_append] at hfs
            rw [hnil]
            simp only [chunksChars_append, chunksChars, List.map_cons, List.map_nil,
              List.flatten_cons, List.flatten_nil, List.append_nil, List.filter_append,
              List.append_assoc, List.nil_append]
            rw [hfs]
      · rw [if_neg hover]
        simp [List.filter_append, List.append_assoc, filter_pyStrip p hpw]

theorem mdFold_filter (p : Char → Bool) (hpw : ∀ c, wsChar c = true → p c = false)
    (tc : String → Nat) (dp : DocumentProcessor) (fn : String) :
    ∀ (lines : List String) (st : MdState),
      List.filter p (chunksChars (lines.foldl (mdStep tc dp fn) st).chunks
          ++ ((lines.foldl (mdStep tc dp fn) st).current_chunk.map String.data).flatten)
        = List.filter p (chunksChars st.chunks
            ++ (st.current_chunk.map String.data).flatten
            ++ (lines.map String.data).flatten) := by
  intro lines
  induction lines with
  | nil => intro st; simp
  | cons a rest ih =>
    intro st
    rw [List.foldl_cons, ih (mdStep tc dp fn st a)]
    simp only [List.filter_append] at *
    rw [show List.filter p (chunksChars (mdStep tc dp fn st a).chunks)
          ++ List.filter p (((mdStep tc dp fn st a).current_chunk.map String.data).flatten)
        = List.filter p (chunksChars st.chunks)
          ++ (List.filter p ((st.current_chunk.map String.data).flatten)
            ++ List.filter p a.data) from by
      have := mdStep_filter p hpw tc dp fn st a
      simpa [List.filter_append] using this]
    simp [List.filter_append, List.append_assoc]

theorem flatten_map_sublist_expand {α β : Type} (g : List α → List β)
    (f : List α → List (List α)) (hf : ∀ l, ∃ suf, f l = l :: suf) :
    ∀ parts : List (List α),
      ((parts.map g).flatten).Sublist ((((parts.map f).flatten).map g).flatten) := by
  intro parts
  induction parts with
  | nil => simp
  | cons a rest ih =>
    obtain ⟨suf, hsuf⟩ := hf a
    simp only [List.map_cons, List.flatten_cons, hsuf, List.map_append, List.flatten_append]
    rw [List.append_assoc]
    exact (ih.trans (List.sublist_append_right _ _)).append_left (g a)

theorem expandLine_cons (k : Nat) (l : List Char) : ∃ suf, expandLine k l = l :: suf := by
  unfold expandLine
  by_cases h : l.take (k + 1) = headerMarker k ∧ l.drop (k + 1) ≠ []
  · exact ⟨[l.drop (k + 1)], if_pos h⟩
  · exact ⟨[], if_neg h⟩

theorem filter_subHeaderPass (p : Char → Bool) (hnl : p '\n' = false) (k : Nat)
    (text : String) :
    (text.data.filter p).Sublist ((subHeaderPass k text).data.filter p) := by
  have hsep : ∀ c ∈ ['\n'], p c = false := by
    intro c hc
    rcases List.mem_singleton.mp hc with rfl
    exact hnl
  show (text.data.filter p).Sublist
    ((joinSep ['\n'] (((splitNl text.data).map (expandLine k)).flatten)).filter p)
  rw [filter_joinSep p _ hsep]
  conv_lhs => rw [← joinSep_splitNl text.data]
  rw [filter_joinSep p _ hsep]
  exact flatten_map_sublist_expand (List.filter p) (expandLine k)
    (expandLine_cons k) (splitNl text.data)

theorem filter_text_to_markdown (p : Char → Bool) (hnl : p '\n' = false) (text : String) :
    (text.data.filter p).Sublist ((text_to_markdown text).data.filter p) := by
  unfold text_to_markdown
  by_cases h : pyStrip text = ""
  · rw [if_pos h]
  · rw [if_neg h]
    exact ((filter_subHeaderPass p hnl 2 text).trans
      (filter_subHeaderPass p hnl 3 _)).trans (filter_subHeaderPass p hnl 4 _)

theorem filter_flatten_splitNl (p : Char → Bool) (hnl : p '\n' = false) (d : List Char) :
    List.filter p (splitNl d).flatten = List.filter p d := by
  have hsep : ∀ c ∈ ['\n'], p c = false := by
    intro c hc
    rcases List.mem_singleton.mp hc with rfl
    exact hnl
  rw [List.filter_flatten, ← filter_joinSep p _ hsep (splitNl d), joinSep_splitNl]

theorem md_split_filter_of_ne (p : Char → Bool)
    (hpw : ∀ c, wsChar c = true → p c = false) (tc : String → Nat)
    (dp : DocumentProcessor) (text fn : String) (um : Bool) (h : pyStrip text ≠ "") :
    List.filter p (chunksChars (split_text_by_markdown_headers tc dp text fn um))
      = List.filter p ((if um then text_to_markdown text else text).data) := by
  have hnl : p '\n' = false := hpw '\n' (by decide)
  unfold split_text_by_markdown_headers
  rw [if_neg h]
  rw [show chunksChars (mdFlush tc fn
      (((splitNl (if um then text_to_markdown text else text).data).map String.mk).foldl
        (mdStep tc dp fn) (mdInit fn)))
    = chunksChars (mdFlush tc fn
      (((splitNl (if um then text_to_markdown text else text).data).map String.mk).foldl
        (mdStep tc dp fn) (mdInit fn))) from rfl]
  rw [mdFlush_filter p hpw, mdFold_filter p hpw]
  simp only [mdInit, chunksChars, List.map_nil, List.flatten_nil, List.nil_append,
    List.append_nil]
  rw [map_data_map_mk]
  exact filter_flatten_splitNl p hnl _

theorem mdFlush_ne (tc : String → Nat) (fn : String) (st : MdState)
    (h : ∀ c ∈ st.chunks, c.content ≠ "") :
    ∀ c ∈ mdFlush tc fn st, c.content ≠ "" := by
  intro c hc
  simp only [mdFlush] at hc
  by_cases h1 : st.current_chunk ≠ []
  · rw [if_pos h1] at hc
    by_cases h2 : pyStrip (pyJoin "\n" st.current_chunk) ≠ ""
    · rw [if_pos h2] at hc
      rcases List.mem_append.mp hc with hm | hm
      · exact h c hm
      · rcases List.mem_singleton.mp hm with rfl
        simpa [mkMdChunk] using h2
    · rw [if_neg h2] at hc
      exact h c hc
  · rw [if_neg h1] at hc
    exact h c hc

theorem mdStep_ne (tc : String → Nat) (dp : DocumentProcessor) (fn : String)
    (st : MdState) (raw : String) (h : ∀ c ∈ st.chunks, c.content ≠ "") :
    ∀ c ∈ (mdStep tc dp fn st raw).chunks, c.content ≠ "" := by
  intro c hc
  simp only [mdStep] at hc
  by_cases hse : pyStrip raw = ""
  · rw [if_pos hse] at hc
    by_cases h1 : st.current_chunk ≠ []
    · rw [if_pos h1] at hc
      exact h c hc
    · rw [if_neg h1] at hc
      exact h c hc
  · rw [if_neg hse] at hc
    cases hmh : matchHeader (pyStrip raw).data with
    | some lv =>
      simp only [hmh] at hc
      exact mdFlush_ne tc fn st h c hc
    | none =>
      simp only [hmh] at hc
      by_cases hover :
          dp.chunk_size < tc (pyJoin "\n" (st.current_chunk ++ [pyStrip raw]))
      · rw [if_pos hover] at hc
        by_cases hlen : 1 < (st.current_chunk ++ [pyStrip raw]).length
        · rw [if_pos hlen] at hc
          by_cases hcont :
              pyStrip (pyJoin "\n" (st.current_chunk ++ [pyStrip raw]).dropLast) ≠ ""
          · rw [if_pos hcont] at hc
            rcases List.mem_append.mp hc with hm | hm
            · exact h c hm
            · rcases List.mem_singleton.mp hm with rfl
              simpa [mkMdChunk] using hcont
          · rw [if_neg hcont] at hc
            exact h c hc
        · rw [if_neg hlen] at hc
          by_cases hcont2 : pyStrip (pyJoin " "
              ((pyWords (pyStrip raw)).take
                ((pyWords (pyStrip raw)).length / 2))) ≠ ""
          · rw [if_pos hcont2] at hc
            rcases List.mem_append.mp hc with hm | hm
            · exact h c hm
            · rcases List.mem_singleton.mp hm with rfl
              simpa [mkMdChunk] using hcont2
          · rw [if_neg hcont2] at hc
            exact h c hc
      · rw [if_neg hover] at hc
        exact h c hc

theorem mdFold_ne (tc : String → Nat) (dp : DocumentProcessor) (fn : String) :
    ∀ (lines : List String) (st : MdState),
      (∀ c ∈ st.chunks, c.content ≠ "") →
      ∀ c ∈ (lines.foldl (mdStep tc dp fn) st).chunks, c.content ≠ "" := by
  intro lines
  induction lines with
  | nil => intro st h; simpa using h
  | cons a rest ih =>
    intro st h
    rw [List.foldl_cons]
    exact ih _ (mdStep_ne tc dp fn st a h)

theorem sentenceStep_ne (tc : String → Nat) (dp : DocumentProcessor) (fn : String)
    (st : ParaState) (s : String) (h : ∀ c ∈ st.chunks, c.content ≠ "") :
    ∀ c ∈ (sentenceStep tc dp fn st s).chunks, c.content ≠ "" := by
  intro c hc
  simp only [sentenceStep] at hc
  by_cases hse : pyStrip s = ""
  · rw [if_pos hse] at hc
    exact h c hc
  · rw [if_neg hse] at hc
    by_cases hfit : st.current_chunk.length + (pyStrip s).length + 1 ≤ dp.chunk_size
    · rw [if_pos hfit] at hc
      by_cases hcur : st.current_chunk ≠ ""
      · rw [if_pos hcur] at hc
        exact h c hc
      · rw [if_neg hcur] at hc
        exact h c hc
    · rw [if_neg hfit] at hc
      by_cases hcur : st.current_chunk ≠ ""
      · rw [if_pos hcur] at hc
        rcases List.mem_append.mp hc with hm | hm
        · exact h c hm
        · rcases List.mem_singleton.mp hm with rfl
          simpa [mkParaChunk] using hcur
      · rw [if_neg hcur] at hc
        exact h c hc

theorem sentFold_ne (tc : String → Nat) (dp : DocumentProcessor) (fn : String) :
    ∀ (ss : List String) (st : ParaState),
      (∀ c ∈ st.chunks, c.content ≠ "") →
      ∀ c ∈ (ss.foldl (sentenceStep tc dp fn) st).chunks, c.content ≠ "" := by
  intro ss
  induction ss with
  | nil => intro st h; simpa using h
  | cons a rest ih =>
    intro st h
    rw [List.foldl_cons]
    exact ih _ (sentenceStep_ne tc dp fn st a h)

theorem paragraphStep_ne (tc : String → Nat) (dp : DocumentProcessor) (fn : String)
    (st : ParaState) (s : String) (h : ∀ c ∈ st.chunks, c.content ≠ "") :
    ∀ c ∈ (paragraphStep tc dp fn st s).chunks, c.content ≠ "" := by
  intro c hc
  simp only [paragraphStep] at hc
  by_cases hse : pyStrip s = ""
  · rw [if_pos hse] at hc
    exact h c hc
  · rw [if_neg hse] at hc
    by_cases hfit : st.current_chunk.length + (pyStrip s).length + 1 ≤ dp.chunk_size
    · rw [if_pos hfit] at hc
      by_cases hcur : st.current_chunk ≠ ""
      · rw [if_pos hcur] at hc
        exact h c hc
      · rw [if_neg hcur] at hc
        exact h c hc
    · rw [if_neg hfit] at hc
      have hmid : ∀ c2 ∈ (if st.current_chunk ≠ "" then
          st.chunks ++ [mkParaChunk tc fn st.current_chunk] else st.chunks),
          c2.content ≠ "" := by
        intro c2 hc2
        by_cases hcur : st.current_chunk ≠ ""
        · rw [if_pos hcur] at hc2
          rcases List.mem_append.mp hc2 with hm | hm
          · exact h c2 hm
          · rcases List.mem_singleton.mp hm with rfl
            simpa [mkParaChunk] using hcur
        · rw [if_neg hcur] at hc2
          exact h c2 hc2
      by_cases hbig : dp.chunk_size < (pyStrip s).length
      · rw [if_pos hbig] at hc
        exact sentFold_ne tc dp fn (sentSplit (pyStrip s)) _ hmid c hc
      · rw [if_neg hbig] at hc
        exact hmid c hc

theorem paraFold_ne (tc : String → Nat) (dp : DocumentProcessor) (fn : String) :
    ∀ (ps : List String) (st : ParaState),
      (∀ c ∈ st.chunks, c.content ≠ "") →
      ∀ c ∈ (ps.foldl (paragraphStep tc dp fn) st).chunks, c.content ≠ "" := by
  intro ps
  induction ps with
  | nil => intro st h; simpa using h
  | cons a rest ih =>
    intro st h
    rw [List.foldl_cons]
    exact ih _ (paragraphStep_ne tc dp fn st a h)

theorem split_text_ne (tc : String → Nat) (dp : DocumentProcessor)
    (text filename : String) (use_markdown : Bool) :
    ∀ c ∈ split_text tc dp text filename use_markdown, c.content ≠ "" := by
  intro c hc
  unfold split_text at hc
  by_cases hum : use_markdown = true
  · rw [if_pos hum] at hc
    unfold split_text_by_markdown_headers at hc
    by_cases hse : pyStrip text = ""
    · rw [if_pos hse] at hc
      simp at hc
    · rw [if_neg hse] at hc
      refine mdFlush_ne tc filename _ ?_ c hc
      exact mdFold_ne tc dp filename _ (mdInit filename) (by intro c2 hc2; simp [mdInit] at hc2)
  · rw [if_neg hum] at hc
    by_cases hse : pyStrip text = ""
    · rw [if_pos hse] at hc
      simp at hc
    · rw [if_neg hse] at hc
      have hfold : ∀ c2 ∈ ((paraSplit text).foldl (paragraphStep tc dp filename)
          { chunks := [], current_chunk := "" } : ParaState).chunks, c2.content ≠ "" :=
        paraFold_ne tc dp filename (paraSplit text) _ (by intro c2 hc2; simp at hc2)
      by_cases hcur : ((paraSplit text).foldl (paragraphStep tc dp filename)
          { chunks := [], current_chunk := "" } : ParaState).current_chunk ≠ ""
      · rw [if_pos hcur] at hc
        rcases List.mem_append.mp hc with hm | hm
        · exact hfold c hm
        · rcases List.mem_singleton.mp hm with rfl
          simpa [mkParaChunk] using hcur
      · rw [if_neg hcur] at hc
        exact hfold c hc

/-- C7: the spec's content-preservation statement is FALSE as stated.  In
paragraph mode an oversized paragraph is re-split on `[.!?]+` and
`re.split` deletes the matched separator, so sentence-terminating
punctuation is lost: on input "abc.def" with chunk_size 5 the produced
chunks are "abc" and "def" and the character '.' of the original text
survives in no chunk, although '.' is not whitespace. -/
theorem c7_counterexample :
    ¬ claimedPreservation count_tokens_fallback ⟨5, 0⟩ "abc.def" "f.txt" false := by
  unfold claimedPreservation
  decide

theorem para_split_filter_of_ne (p : Char → Bool)
    (hpw : ∀ c, wsChar c = true → p c = false)
    (hpp : ∀ c, sentencePunct c = true → p c = false)
    (tc : String → Nat) (dp : DocumentProcessor) (text fn : String)
    (h : pyStrip text ≠ "") :
    List.filter p (chunksChars (split_text tc dp text fn false))
      = List.filter p text.data := by
  simp only [split_text]
  rw [if_neg Bool.false_ne_true, if_neg h]
  set st : ParaState := (paraSplit text).foldl (paragraphStep tc dp fn)
    { chunks := [], current_chunk := "" } with hst
  have hfold := paraFold_filter p hpw hpp tc dp fn (paraSplit text)
    { chunks := [], current_chunk := "" }
  rw [← hst] at hfold
  have hkey : List.filter p (chunksChars st.chunks ++ st.current_chunk.data)
      = List.filter p text.data := by
    rw [hfold]
    show List.filter p (chunksChars [] ++ ("" : String).data
        ++ ((paraSplit text).map String.data).flatten) = _
    simp only [chunksChars, List.map_nil, List.flatten_nil, List.nil_append]
    show List.filter p ((paraSplit text).map String.data).flatten = _
    unfold paraSplit
    rw [map_data_map_mk, List.filter_flatten,
      paraSplitAux_filter p hpw text.data.length text.data [] le_rfl]
    simp
  by_cases hcur : st.current_chunk ≠ ""
  · rw [if_pos hcur, chunksChars_append, List.filter_append, ← hkey, List.filter_append]
    simp [chunksChars, mkParaChunk]
  · rw [if_neg hcur]
    simp only [ne_eq, Decidable.not_not] at hcur
    rw [← hkey, hcur]
    simp [List.filter_append]

/-- C7 (amended): for every input text, segmentation in either mode
produces only non-empty chunks, and the concatenated chunk contents
contain the whole original content once inserted whitespace AND the
sentence-terminating punctuation characters `.` `!` `?` (which the
paragraph-mode sentence re-split deletes) are ignored on both sides; the
structure-aware mode may additionally duplicate heading text, whence a
sublist rather than an equality. -/
theorem c7_content_preservation (tc : String → Nat) (dp : DocumentProcessor)
    (text filename : String) (use_markdown : Bool) (hne : text ≠ "") :
    (∀ c ∈ split_text tc dp text filename use_markdown, c.content ≠ "") ∧
    (text.data.filter plainChar).Sublist
      ((chunksChars (split_text tc dp text filename use_markdown)).filter plainChar) := by
  refine ⟨split_text_ne tc dp text filename use_markdown, ?_⟩
  have hpw : ∀ c, wsChar c = true → plainChar c = false := by
    intro c hcw
    simp [plainChar, hcw]
  have hpp : ∀ c, sentencePunct c = true → plainChar c = false := by
    intro c hcp
    simp [plainChar, hcp]
  by_cases hse : pyStrip text = ""
  · rw [show text.data.filter plainChar = List.filter plainChar text.data from rfl,
      filter_of_strip_empty plainChar hpw text hse]
    exact List.nil_sublist _
  · cases use_markdown with
    | true =>
      have heq := md_split_filter_of_ne plainChar hpw tc dp text filename true hse
      rw [show split_text tc dp text filename true
          = split_text_by_markdown_headers tc dp text filename true from rfl, heq,
        if_pos rfl]
      exact filter_text_to_markdown plainChar (hpw '\n' (by decide)) text
    | false =>
      rw [para_split_filter_of_ne plainChar hpw hpp tc dp text filename hse]

theorem c7_content_preservation_witness :
    ("hello world" : String) ≠ "" ∧
    ((∀ c ∈ split_text count_tokens_fallback ⟨5, 0⟩ "hello world" "f.txt" false,
        c.content ≠ "") ∧
      (("hello world" : String).data.filter plainChar).Sublist
        ((chunksChars (split_text count_tokens_fallback ⟨5, 0⟩ "hello world" "f.txt"
          false)).filter plainChar)) :=
  ⟨by decide, c7_content_preservation count_tokens_fallback ⟨5, 0⟩ "hello world" "f.txt"
    false (by decide)⟩
